import Mathlib

/-! The C3 profile (`c2functions/builder.go`): callbacks, parameter schema, configuration
store.

A shallow embedding of the Go package `c2functions` and the properties its
specification states about it.  Go values are embedded as follows.

* `string` is `String`.  Every string the package handles is the result of a JSON
  decode (the request messages and `config.json`), hence valid UTF-8.
* `map[string]interface{}` of a request is a lookup function `String → Option GoValue`.
* `map[string]string` is `Option StrMap`: `none` is the nil map, `some m` a map whose
  entries are kept sorted by key without duplicates, so equal maps are equal terms.
* a slice `[]T` is `Option (List T)`: `none` is the nil slice.
* `int` is an `Int` together with the bounds of a 64-bit machine integer.
-/

namespace c2functions

/-! ## Request and response messages -/

/-- What an `interface{}` holds once a request has been decoded from JSON. -/
inductive GoValue where
  | nil
  | bool (b : Bool)
  | number (lit : String)
  | string (s : String)
  | array (xs : List GoValue)
  | object (kvs : List (String × GoValue))

/-- Request of the config check: the operator-supplied parameter map. -/
structure C2ConfigCheckMessage where
  Parameters : String → Option GoValue

/-- Response of the config check. -/
structure C2ConfigCheckMessageResponse where
  Success : Bool
  Error : String
  Message : String
deriving DecidableEq, Repr

/-- `ConfigCheckFunction` (builder.go, lines 50-61).  `sprintV` stands for
`fmt.Sprintf("%v", message)`, whose text only reaches the `Message` field. -/
def ConfigCheckFunction (sprintV : C2ConfigCheckMessage → String)
    (message : C2ConfigCheckMessage) : C2ConfigCheckMessageResponse :=
  let response : C2ConfigCheckMessageResponse :=
    { Success := true, Error := "", Message := "Called config check\n" ++ sprintV message }
  match message.Parameters "pipename" with
  | none => { response with Success := false, Error := "Failed to get pipename attribute" }
  | some _ => response

/-- Request of the IOC extraction: the parameter map of a built payload. -/
structure C2GetIOCMessage where
  Parameters : String → Option GoValue

/-- One indicator of compromise; `Type_` is the Go field `Type`. -/
structure IOC where
  Type_ : String
  IOC : String
deriving DecidableEq, Repr

/-- Response of the IOC extraction. -/
structure C2GetIOCMessageResponse where
  Success : Bool
  Error : String
  IOCs : List IOC
deriving DecidableEq, Repr

/-- Modelled from the spec: `GetStringArg` is a method of the host framework's message
type and is not part of this repository.  The specification of `getIOC` says the
argument is extracted when it is a string and the extraction fails when the argument
"is missing or not a string". -/
def C2GetIOCMessage.GetStringArg (message : C2GetIOCMessage) (name : String) :
    Except String String :=
  match message.Parameters name with
  | some (GoValue.string v) => Except.ok v
  | some _ => Except.error "bad type for argument"
  | none => Except.error "failed to find argument"

/-- `GetIOCFunction` (builder.go, lines 70-84).  `fmt.Sprintf("%s", getPipe)` of a
string is that string. -/
def GetIOCFunction (message : C2GetIOCMessage) : C2GetIOCMessageResponse :=
  let response : C2GetIOCMessageResponse := { Success := true, Error := "", IOCs := [] }
  match message.GetStringArg "pipename" with
  | Except.error _ => { response with Success := false, Error := "Failed to get pipename" }
  | Except.ok getPipe =>
    { response with IOCs := response.IOCs ++ [{ Type_ := "pipename", IOC := getPipe }] }

/-! ## The configuration document -/

/-- Go `int` on the 64-bit platforms the profile runs on. -/
structure GoInt where
  val : Int
  inRange : -9223372036854775808 ≤ val ∧ val ≤ 9223372036854775807
deriving DecidableEq

/-- Order of map keys: lexicographic by code point, which is the byte order of the
UTF-8 encodings that `encoding/json` sorts map keys by. -/
def keyLt (a b : String) : Prop := a.data < b.data

instance (a b : String) : Decidable (keyLt a b) := by
  unfold keyLt
  exact inferInstance

/-- Entries sorted strictly by key. -/
def SortedEntries (l : List (String × String)) : Prop :=
  l.Pairwise (fun a b => keyLt a.1 b.1)

/-- `m[k] = v` on the entry list: replaces the value of `k` or adds the entry. -/
def insertEntry (k v : String) : List (String × String) → List (String × String)
  | [] => [(k, v)]
  | (k', v') :: t =>
    if keyLt k k' then (k, v) :: (k', v') :: t
    else if k = k' then (k, v) :: t
    else (k', v') :: insertEntry k v t

/-- `v, ok := m[k]` on the entry list. -/
def lookupEntry (k : String) : List (String × String) → Option String
  | [] => none
  | (k', v') :: t => if k = k' then some v' else lookupEntry k t

/-! The map type below carries the proof that its entries are sorted; these are the facts
about `insertEntry` that its assignment needs. -/

theorem insertEntry_keys (k v : String) (l : List (String × String)) (x : String × String)
    (hx : x ∈ insertEntry k v l) : x = (k, v) ∨ x ∈ l := by
  induction l with
  | nil => simpa [insertEntry] using hx
  | cons hd t ih =>
    obtain ⟨k', v'⟩ := hd
    unfold insertEntry at hx
    split_ifs at hx with h1 h2
    · simpa using hx
    · rcases List.mem_cons.1 hx with h | h
      · exact Or.inl h
      · exact Or.inr (List.mem_cons_of_mem _ h)
    · rcases List.mem_cons.1 hx with h | h
      · exact Or.inr (h ▸ List.mem_cons_self _ _)
      · rcases ih h with h | h
        · exact Or.inl h
        · exact Or.inr (List.mem_cons_of_mem _ h)

theorem keyLt_of_not (a b : String) (h1 : ¬ keyLt a b) (h2 : a ≠ b) : keyLt b a := by
  unfold keyLt at *
  rcases lt_trichotomy a.data b.data with h | h | h
  · exact absurd h h1
  · exact absurd (String.ext h) h2
  · exact h

theorem insertEntry_sorted (k v : String) (l : List (String × String))
    (hl : SortedEntries l) : SortedEntries (insertEntry k v l) := by
  induction l with
  | nil => simp [insertEntry, SortedEntries]
  | cons hd t ih =>
    obtain ⟨k', v'⟩ := hd
    unfold SortedEntries at hl ih ⊢
    rw [List.pairwise_cons] at hl
    unfold insertEntry
    split_ifs with h1 h2
    · refine List.pairwise_cons.2 ⟨?_, List.pairwise_cons.2 hl⟩
      intro x hx
      rcases List.mem_cons.1 hx with h | h
      · subst h
        exact h1
      · exact lt_trans (α := List Char) h1 (hl.1 x h)
    · subst h2
      exact List.pairwise_cons.2 ⟨hl.1, hl.2⟩
    · refine List.pairwise_cons.2 ⟨?_, ih hl.2⟩
      intro x hx
      rcases insertEntry_keys k v t x hx with h | h
      · subst h
        exact keyLt_of_not k k' h1 h2
      · exact hl.1 x h

/-- The content of a non-nil Go `map[string]string`: its entries, sorted strictly by
key, so that two maps with the same bindings are the same term. -/
structure StrMap where
  entries : List (String × String)
  sorted : SortedEntries entries

instance : DecidableEq StrMap := fun a b =>
  decidable_of_iff (a.entries = b.entries) (by cases a; cases b; simp)

/-- `make(map[string]string)`. -/
def StrMap.empty : StrMap := ⟨[], List.Pairwise.nil⟩

/-- `m[k] = v`. -/
def StrMap.insert (m : StrMap) (k v : String) : StrMap :=
  ⟨insertEntry k v m.entries, insertEntry_sorted k v m.entries m.sorted⟩

/-- `v, ok := m[k]`. -/
def StrMap.lookup (m : StrMap) (k : String) : Option String := lookupEntry k m.entries

/-- `instanceConfig` (builder.go, lines 15-22). -/
structure instanceConfig where
  Port : GoInt
  KeyPath : String
  CertPath : String
  Debug : Bool
  UseSSL : Bool
  PayloadHostPaths : Option StrMap
deriving DecidableEq

/-- `config` (builder.go, lines 12-14). -/
structure config where
  Instances : Option (List instanceConfig)
deriving DecidableEq

/-- The instances of a document as a sequence; the nil slice has none. -/
def config.instanceList (cfg : config) : List instanceConfig := cfg.Instances.getD []

/-- `v, ok := inst.PayloadHostPaths[k]`; reading a nil map finds nothing. -/
def instanceConfig.hostedPath (inst : instanceConfig) (k : String) : Option String :=
  match inst.PayloadHostPaths with
  | none => none
  | some m => m.lookup k

/-- The body of the instance loop of `HostFileFunction` (builder.go, lines 100-103):
the map is made when it is nil, then `PayloadHostPaths[HostURL] = FileUUID`. -/
def setHostedPath (HostURL FileUUID : String) (inst : instanceConfig) : instanceConfig :=
  let paths : StrMap :=
    match inst.PayloadHostPaths with
    | none => StrMap.empty
    | some m => m
  { inst with PayloadHostPaths := some (paths.insert HostURL FileUUID) }

/-- The instance loop of `HostFileFunction` (builder.go, lines 99-104), which the
specification calls `addOrUpdateHostedPath`: every instance is updated in place; a nil
slice is ranged over zero times and stays nil. -/
def addOrUpdateHostedPath (cfg : config) (HostURL FileUUID : String) : config :=
  { Instances := cfg.Instances.map (List.map (setHostedPath HostURL FileUUID)) }

/-! ## Decimal numbers -/

/-- Decimal value of a run of digits. -/
def digitsValue (ds : List Char) : Nat :=
  ds.foldl (fun acc c => acc * 10 + (c.toNat - 48)) 0

/-- The decimal digits of a number, most significant first. -/
def natDigits : Nat → Nat → List Char → List Char
  | 0, _, acc => acc
  | fuel + 1, n, acc =>
    if n < 10 then Char.ofNat (48 + n) :: acc
    else natDigits fuel (n / 10) (Char.ofNat (48 + n % 10) :: acc)

/-- The decimal text of a natural number. -/
def natLit (n : Nat) : List Char := natDigits (n + 1) n []

/-- The decimal text of an integer. -/
def intLit (n : Int) : List Char :=
  if n < 0 then '-' :: natLit n.natAbs else natLit n.natAbs

/-! ## `encoding/json` on the configuration document

`json.MarshalIndent` and `json.Unmarshal` are library functions; they are embedded at
the types of `config`.  Text is a list of code points, so a file that is not valid UTF-8
is outside the model. -/

/-- A hexadecimal digit, in lower case. -/
def hexDigit (n : Nat) : Char := if n < 10 then Char.ofNat (48 + n) else Char.ofNat (87 + n)

/-- The JSON escape of one character of a string, as `json.Marshal` writes it (with HTML
escaping, its default): the quote, the backslash and the control characters, `<`, `>`,
`&`, and the line separators U+2028 and U+2029 are escaped.  Backspace and form feed are
written `\u0008` and `\u000c`; the releases of Go that write `\b` and `\f` instead
produce a text that the decoder below reads to the same string. -/
def escapeChar (c : Char) : List Char :=
  if c = '"' then ['\\', '"']
  else if c = '\\' then ['\\', '\\']
  else if c = '\n' then ['\\', 'n']
  else if c = '\r' then ['\\', 'r']
  else if c = '\t' then ['\\', 't']
  else if c.toNat < 32 ∨ c = '<' ∨ c = '>' ∨ c = '&' then
    ['\\', 'u', '0', '0', hexDigit (c.toNat / 16), hexDigit (c.toNat % 16)]
  else if c.toNat = 8232 ∨ c.toNat = 8233 then
    ['\\', 'u', '2', '0', '2', hexDigit (c.toNat % 16)]
  else [c]

/-- The escaped content of a string. -/
def escape : List Char → List Char
  | [] => []
  | c :: t => escapeChar c ++ escape t

/-- A JSON string literal. -/
def quote (s : String) : List Char := '"' :: (escape s.data ++ ['"'])

/-- A line break followed by the indentation of the given depth (two spaces a level). -/
def newline (depth : Nat) : List Char := '\n' :: List.replicate (2 * depth) ' '

/-- The members of a non-empty `map[string]string`, in key order. -/
def renderEntries (depth : Nat) : List (String × String) → List Char
  | [] => []
  | [(k, v)] => newline depth ++ quote k ++ [':', ' '] ++ quote v
  | (k, v) :: e :: rest =>
    newline depth ++ quote k ++ [':', ' '] ++ quote v ++ [','] ++ renderEntries depth (e :: rest)

/-- A `map[string]string`: `null` when nil, `{}` when empty. -/
def renderMap (depth : Nat) : Option StrMap → List Char
  | none => ['n', 'u', 'l', 'l']
  | some m =>
    match m.entries with
    | [] => ['{', '}']
    | e :: rest => '{' :: (renderEntries (depth + 1) (e :: rest) ++ newline depth ++ ['}'])

/-- A `bool`. -/
def renderBool (b : Bool) : List Char :=
  if b then ['t', 'r', 'u', 'e'] else ['f', 'a', 'l', 's', 'e']

/-- An `instanceConfig`: its six fields in declaration order under their JSON names. -/
def renderInstance (depth : Nat) (inst : instanceConfig) : List Char :=
  '{' :: (newline (depth + 1) ++ quote "port" ++ [':', ' '] ++ intLit inst.Port.val ++ [','] ++
    newline (depth + 1) ++ quote "key_path" ++ [':', ' '] ++ quote inst.KeyPath ++ [','] ++
    newline (depth + 1) ++ quote "cert_path" ++ [':', ' '] ++ quote inst.CertPath ++ [','] ++
    newline (depth + 1) ++ quote "debug" ++ [':', ' '] ++ renderBool inst.Debug ++ [','] ++
    newline (depth + 1) ++ quote "use_ssl" ++ [':', ' '] ++ renderBool inst.UseSSL ++ [','] ++
    newline (depth + 1) ++ quote "payloads" ++ [':', ' '] ++
      renderMap (depth + 1) inst.PayloadHostPaths ++
    newline depth ++ ['}'])

/-- The elements of a non-empty `[]instanceConfig`. -/
def renderElements (depth : Nat) : List instanceConfig → List Char
  | [] => []
  | [a] => newline depth ++ renderInstance depth a
  | a :: b :: rest =>
    newline depth ++ renderInstance depth a ++ [','] ++ renderElements depth (b :: rest)

/-- A `[]instanceConfig`: `null` when nil, `[]` when empty. -/
def renderInstances (depth : Nat) : Option (List instanceConfig) → List Char
  | none => ['n', 'u', 'l', 'l']
  | some [] => ['[', ']']
  | some (a :: rest) => '[' :: (renderElements (depth + 1) (a :: rest) ++ newline depth ++ [']'])

/-- `json.MarshalIndent(*cfg, "", "  ")`.  Encoding a `config` cannot fail: it holds
integers, booleans, strings, a map with string keys and a slice, and no cycle. -/
def json.MarshalIndent (cfg : config) : List Char :=
  '{' :: (newline 1 ++ quote "instances" ++ [':', ' '] ++ renderInstances 1 cfg.Instances ++
    newline 0 ++ ['}'])

/-- A JSON value as the decoder sees it: numbers keep their literal, objects keep their
members in the order and multiplicity of the text. -/
inductive Json where
  | null
  | bool (b : Bool)
  | num (lit : List Char)
  | str (s : String)
  | arr (items : List Json)
  | obj (members : List (String × Json))

/-- JSON white space. -/
def isSpace (c : Char) : Bool := c = ' ' || c = '\t' || c = '\r' || c = '\n'

/-- Drops leading white space. -/
def skipSpace : List Char → List Char
  | [] => []
  | c :: t => if isSpace c then skipSpace t else c :: t

/-- The value of a hexadecimal digit. -/
def hexVal (c : Char) : Option Nat :=
  if 48 ≤ c.toNat ∧ c.toNat ≤ 57 then some (c.toNat - 48)
  else if 97 ≤ c.toNat ∧ c.toNat ≤ 102 then some (c.toNat - 87)
  else if 65 ≤ c.toNat ∧ c.toNat ≤ 70 then some (c.toNat - 55)
  else none

/-- The value of four hexadecimal digits. -/
def hex4 (a b c d : Char) : Option Nat :=
  match hexVal a, hexVal b, hexVal c, hexVal d with
  | some x, some y, some z, some w => some (((x * 16 + y) * 16 + z) * 16 + w)
  | _, _, _, _ => none

/-- The character a one-letter escape stands for. -/
def simpleEscape (e : Char) : Option Char :=
  if e = '"' then some '"'
  else if e = '\\' then some '\\'
  else if e = '/' then some '/'
  else if e = 'b' then some (Char.ofNat 8)
  else if e = 'f' then some (Char.ofNat 12)
  else if e = 'n' then some '\n'
  else if e = 'r' then some '\r'
  else if e = 't' then some '\t'
  else none

/-- Puts U+FFFD in front of the result when a high surrogate was left without its
partner. -/
def flushSurrogate (pending : Option Nat) (r : List Char × List Char) : List Char × List Char :=
  match pending with
  | none => r
  | some _ => (Char.ofNat 65533 :: r.1, r.2)

/-- Reads a string literal after its opening quote: the decoded content and what
follows the closing quote.  `pending` is the high surrogate of a `\u` escape read just
before: with the low surrogate of a following `\u` escape it makes one character; a
surrogate without its partner is U+FFFD.  A raw control character is a syntax error. -/
def parseStringBody : Option Nat → List Char → Option (List Char × List Char)
  | _, [] => none
  | pending, c :: rest =>
    if c = '"' then some (flushSurrogate pending ([], rest))
    else if c = '\\' then
      match rest with
      | [] => none
      | e :: rest1 =>
        if e = 'u' then
          match rest1 with
          | h1 :: h2 :: h3 :: h4 :: rest2 =>
            match hex4 h1 h2 h3 h4 with
            | none => none
            | some n =>
              if 56320 ≤ n ∧ n < 57344 then
                match pending with
                | some hi =>
                  (parseStringBody none rest2).map (fun r =>
                    (Char.ofNat (65536 + (hi - 55296) * 1024 + (n - 56320)) :: r.1, r.2))
                | none => (parseStringBody none rest2).map (fun r => (Char.ofNat 65533 :: r.1, r.2))
              else if 55296 ≤ n ∧ n < 56320 then
                (parseStringBody (some n) rest2).map (flushSurrogate pending)
              else
                (parseStringBody none rest2).map (fun r =>
                  flushSurrogate pending (Char.ofNat n :: r.1, r.2))
          | _ => none
        else
          match simpleEscape e with
          | none => none
          | some ch =>
            (parseStringBody none rest1).map (fun r => flushSurrogate pending (ch :: r.1, r.2))
    else if c.toNat < 32 then none
    else (parseStringBody none rest).map (fun r => flushSurrogate pending (c :: r.1, r.2))

/-- A decimal digit. -/
def isDigit (c : Char) : Bool := decide (48 ≤ c.toNat) && decide (c.toNat ≤ 57)

/-- Reads a non-empty run of digits. -/
def parseDigits (s : List Char) : Option (List Char × List Char) :=
  if (s.takeWhile isDigit).isEmpty then none
  else some (s.takeWhile isDigit, s.dropWhile isDigit)

/-- Reads the optional minus sign of a number. -/
def parseSign (s : List Char) : List Char × List Char :=
  match s with
  | c :: t => if c = '-' then (['-'], t) else ([], c :: t)
  | [] => ([], [])

/-- Reads the integer part of a number: `0`, or a run of digits not starting with `0`. -/
def parseIntPart (s : List Char) : Option (List Char × List Char) :=
  match s with
  | c :: t => if c = '0' then some (['0'], t) else parseDigits (c :: t)
  | [] => none

/-- Reads the optional fraction of a number. -/
def parseFraction (s : List Char) : Option (List Char × List Char) :=
  match s with
  | c :: t =>
    if c = '.' then (parseDigits t).map (fun p => ('.' :: p.1, p.2)) else some ([], c :: t)
  | [] => some ([], [])

/-- Reads the optional exponent of a number. -/
def parseExponent (s : List Char) : Option (List Char × List Char) :=
  match s with
  | c :: t =>
    if c = 'e' ∨ c = 'E' then
      match t with
      | g :: t1 =>
        if g = '+' ∨ g = '-' then (parseDigits t1).map (fun p => (c :: g :: p.1, p.2))
        else (parseDigits (g :: t1)).map (fun p => (c :: p.1, p.2))
      | [] => none
    else some ([], c :: t)
  | [] => some ([], [])

/-- Reads a number literal: an optional minus, the integer part, an optional fraction,
an optional exponent. -/
def parseNumber (s : List Char) : Option (List Char × List Char) :=
  match parseIntPart (parseSign s).2 with
  | none => none
  | some (ip, r1) =>
    match parseFraction r1 with
    | none => none
    | some (fp, r2) =>
      match parseExponent r2 with
      | none => none
      | some (ep, r3) => some ((parseSign s).1 ++ ip ++ fp ++ ep, r3)

/-- Reads the given word. -/
def parseWord (w : List Char) (s : List Char) : Option (List Char) :=
  if s.take w.length = w then some (s.drop w.length) else none

/-- What the parser is reading: a value, the members of an object after a `{` or a
`,`, the elements of an array after a `[` or a `,`. -/
inductive Mode where
  | value
  | members
  | elements

/-- The JSON parser, with a budget of calls.  `parseDocument` gives it one more than the
length of the text, and no larger budget changes the result (`parseJson_fuel`).  The limit
that the library puts on the depth of nesting (10000) is left out. -/
def parseJson : Nat → Mode → List Char → Option (Json × List Char)
  | 0, _, _ => none
  | fuel + 1, Mode.value, s =>
    match skipSpace s with
    | [] => none
    | c :: rest =>
      if c = '{' then
        match skipSpace rest with
        | [] => none
        | c1 :: rest1 =>
          if c1 = '}' then some (Json.obj [], rest1) else parseJson fuel Mode.members (c1 :: rest1)
      else if c = '[' then
        match skipSpace rest with
        | [] => none
        | c1 :: rest1 =>
          if c1 = ']' then some (Json.arr [], rest1) else parseJson fuel Mode.elements (c1 :: rest1)
      else if c = '"' then
        (parseStringBody none rest).map (fun r => (Json.str (String.mk r.1), r.2))
      else if c = 't' then (parseWord ['r', 'u', 'e'] rest).map (fun r => (Json.bool true, r))
      else if c = 'f' then
        (parseWord ['a', 'l', 's', 'e'] rest).map (fun r => (Json.bool false, r))
      else if c = 'n' then (parseWord ['u', 'l', 'l'] rest).map (fun r => (Json.null, r))
      else (parseNumber (c :: rest)).map (fun r => (Json.num r.1, r.2))
  | fuel + 1, Mode.members, s =>
    match skipSpace s with
    | [] => none
    | c :: rest =>
      if c = '"' then
        match parseStringBody none rest with
        | none => none
        | some (k, rest1) =>
          match skipSpace rest1 with
          | [] => none
          | c1 :: rest2 =>
            if c1 = ':' then
              match parseJson fuel Mode.value rest2 with
              | none => none
              | some (v, rest3) =>
                match skipSpace rest3 with
                | [] => none
                | c2 :: rest4 =>
                  if c2 = '}' then some (Json.obj [(String.mk k, v)], rest4)
                  else if c2 = ',' then
                    match parseJson fuel Mode.members rest4 with
                    | some (Json.obj ms, rest5) => some (Json.obj ((String.mk k, v) :: ms), rest5)
                    | _ => none
                  else none
            else none
      else none
  | fuel + 1, Mode.elements, s =>
    match parseJson fuel Mode.value s with
    | none => none
    | some (v, rest) =>
      match skipSpace rest with
      | [] => none
      | c :: rest1 =>
        if c = ']' then some (Json.arr [v], rest1)
        else if c = ',' then
          match parseJson fuel Mode.elements rest1 with
          | some (Json.arr vs, rest2) => some (Json.arr (v :: vs), rest2)
          | _ => none
        else none

/-- A whole text: one value, with nothing but white space around it. -/
def parseDocument (s : List Char) : Option Json :=
  match parseJson (s.length + 1) Mode.value s with
  | none => none
  | some (j, rest) => if skipSpace rest = [] then some j else none

/-- The Go errors the store meets, with what tells them apart. -/
inductive GoError where
  | pathError (op : String) (path : String) (msg : String)
  | syntaxError
  | unmarshalTypeError (value : String) (goType : String)
deriving DecidableEq, Repr

instance : DecidableEq (Except GoError config) := fun a b =>
  match a, b with
  | Except.ok x, Except.ok y => decidable_of_iff (x = y) (by simp)
  | Except.error x, Except.error y => decidable_of_iff (x = y) (by simp)
  | Except.ok _, Except.error _ => isFalse (by simp)
  | Except.error _, Except.ok _ => isFalse (by simp)

/-- The text `err.Error()` gives.  For a path error it is "op path: msg"; the position
and character that a syntax error names are not modelled. -/
def GoError.Error : GoError → String
  | GoError.pathError op path msg => op ++ " " ++ path ++ ": " ++ msg
  | GoError.syntaxError => "invalid JSON syntax"
  | GoError.unmarshalTypeError value goType =>
    "json: cannot unmarshal " ++ value ++ " into Go value of type " ++ goType

/-- The kind of a JSON value, as type errors name it. -/
def Json.kind : Json → String
  | Json.null => "null"
  | Json.bool _ => "bool"
  | Json.num _ => "number"
  | Json.str _ => "string"
  | Json.arr _ => "array"
  | Json.obj _ => "object"

/-- Decoding into a `string`: `null` leaves the value as it is. -/
def decodeString (j : Json) (old : String) : Except GoError String :=
  match j with
  | Json.null => Except.ok old
  | Json.str s => Except.ok s
  | other => Except.error (GoError.unmarshalTypeError other.kind "string")

/-- Decoding into a `bool`. -/
def decodeBool (j : Json) (old : Bool) : Except GoError Bool :=
  match j with
  | Json.null => Except.ok old
  | Json.bool b => Except.ok b
  | other => Except.error (GoError.unmarshalTypeError other.kind "bool")

/-- The integer a literal denotes when it is written without fraction and exponent. -/
def parseIntLit (lit : List Char) : Option Int :=
  match lit with
  | [] => none
  | c :: t =>
    if c = '-' then
      if t.all isDigit && !t.isEmpty then some (-(digitsValue t : Int)) else none
    else if (c :: t).all isDigit then some (digitsValue (c :: t) : Int)
    else none

/-- Decoding into an `int` (`strconv.ParseInt(lit, 10, 64)`): anything but an integer
within the 64-bit range is a type error. -/
def decodeInt (j : Json) (old : GoInt) : Except GoError GoInt :=
  match j with
  | Json.null => Except.ok old
  | Json.num lit =>
    match parseIntLit lit with
    | none => Except.error (GoError.unmarshalTypeError ("number " ++ String.mk lit) "int")
    | some n =>
      if h : -9223372036854775808 ≤ n ∧ n ≤ 9223372036854775807 then Except.ok ⟨n, h⟩
      else Except.error (GoError.unmarshalTypeError ("number " ++ String.mk lit) "int")
  | other => Except.error (GoError.unmarshalTypeError other.kind "int")

/-- Decoding the members of an object into a map: each value is decoded into a fresh
string and stored under its key, a later member replacing an earlier one. -/
def decodeMapMembers : List (String × Json) → StrMap → Except GoError StrMap
  | [], m => Except.ok m
  | (k, v) :: rest, m =>
    match decodeString v "" with
    | Except.error e => Except.error e
    | Except.ok s => decodeMapMembers rest (m.insert k s)

/-- Decoding into a `map[string]string`: `null` makes it nil, an object is decoded into
the existing map, or into a new one when there is none. -/
def decodeMap (j : Json) (old : Option StrMap) : Except GoError (Option StrMap) :=
  match j with
  | Json.null => Except.ok none
  | Json.obj ms =>
    match decodeMapMembers ms (old.getD StrMap.empty) with
    | Except.error e => Except.error e
    | Except.ok m => Except.ok (some m)
  | other => Except.error (GoError.unmarshalTypeError other.kind "map[string]string")

/-- Case folding of member names: ASCII letters fold to upper case, and so do the two
characters that fold to ASCII letters (U+017F to `S`, U+212A to `K`). -/
def foldChar (c : Char) : Char :=
  if 97 ≤ c.toNat ∧ c.toNat ≤ 122 then Char.ofNat (c.toNat - 32)
  else if c.toNat = 383 then 'S'
  else if c.toNat = 8490 then 'K'
  else c

/-- A member name selects the struct field whose JSON name it equals, exactly or up to
case. -/
def sameField (key name : String) : Bool := key.data.map foldChar = name.data.map foldChar

/-- Decoding one member into an `instanceConfig`; a name that selects no field is
skipped. -/
def decodeInstanceField (k : String) (v : Json) (inst : instanceConfig) :
    Except GoError instanceConfig :=
  if sameField k "port" then
    (decodeInt v inst.Port).map (fun x => { inst with Port := x })
  else if sameField k "key_path" then
    (decodeString v inst.KeyPath).map (fun x => { inst with KeyPath := x })
  else if sameField k "cert_path" then
    (decodeString v inst.CertPath).map (fun x => { inst with CertPath := x })
  else if sameField k "debug" then
    (decodeBool v inst.Debug).map (fun x => { inst with Debug := x })
  else if sameField k "use_ssl" then
    (decodeBool v inst.UseSSL).map (fun x => { inst with UseSSL := x })
  else if sameField k "payloads" then
    (decodeMap v inst.PayloadHostPaths).map (fun x => { inst with PayloadHostPaths := x })
  else Except.ok inst

/-- Decoding the members of an object into an `instanceConfig`, in the order of the
text. -/
def decodeInstanceMembers : List (String × Json) → instanceConfig → Except GoError instanceConfig
  | [], inst => Except.ok inst
  | (k, v) :: rest, inst =>
    match decodeInstanceField k v inst with
    | Except.error e => Except.error e
    | Except.ok inst1 => decodeInstanceMembers rest inst1

/-- The zero value of `instanceConfig`. -/
def zeroInstance : instanceConfig :=
  { Port := ⟨0, by decide⟩, KeyPath := "", CertPath := "", Debug := false, UseSSL := false,
    PayloadHostPaths := none }

/-- Decoding into an `instanceConfig`. -/
def decodeInstance (j : Json) (old : instanceConfig) : Except GoError instanceConfig :=
  match j with
  | Json.null => Except.ok old
  | Json.obj ms => decodeInstanceMembers ms old
  | other => Except.error (GoError.unmarshalTypeError other.kind "c2functions.instanceConfig")

/-- Decoding the elements of an array.  Every element starts from the zero value (how
the elements of a slice that is decoded a second time are reused is left out). -/
def decodeElements : List Json → Except GoError (List instanceConfig)
  | [] => Except.ok []
  | j :: rest =>
    match decodeInstance j zeroInstance with
    | Except.error e => Except.error e
    | Except.ok a =>
      match decodeElements rest with
      | Except.error e => Except.error e
      | Except.ok l => Except.ok (a :: l)

/-- Decoding into a `[]instanceConfig`: `null` makes it nil, an empty array makes it
empty but not nil. -/
def decodeInstances (j : Json) : Except GoError (Option (List instanceConfig)) :=
  match j with
  | Json.null => Except.ok none
  | Json.arr items =>
    match decodeElements items with
    | Except.error e => Except.error e
    | Except.ok l => Except.ok (some l)
  | other => Except.error (GoError.unmarshalTypeError other.kind "[]c2functions.instanceConfig")

/-- Decoding the members of an object into a `config`. -/
def decodeConfigMembers : List (String × Json) → config → Except GoError config
  | [], cfg => Except.ok cfg
  | (k, v) :: rest, cfg =>
    if sameField k "instances" then
      match decodeInstances v with
      | Except.error e => Except.error e
      | Except.ok l => decodeConfigMembers rest { cfg with Instances := l }
    else decodeConfigMembers rest cfg

/-- Decoding into a `config`. -/
def decodeConfig (j : Json) (old : config) : Except GoError config :=
  match j with
  | Json.null => Except.ok old
  | Json.obj ms => decodeConfigMembers ms old
  | other => Except.error (GoError.unmarshalTypeError other.kind "c2functions.config")

/-- `json.Unmarshal(configBytes, &currentConfig)` with `currentConfig := config{}`: a text
that is not JSON is a syntax error; otherwise the value is decoded into the struct. -/
def json.Unmarshal (data : List Char) : Except GoError config :=
  match parseDocument data with
  | none => Except.error GoError.syntaxError
  | some j => decodeConfig j { Instances := none }

/-- The JSON value a `map[string]string` is encoded as. -/
def mapJson : Option StrMap → Json
  | none => Json.null
  | some m => Json.obj (m.entries.map (fun e => (e.1, Json.str e.2)))

/-- The JSON value an `instanceConfig` is encoded as. -/
def instanceJson (inst : instanceConfig) : Json :=
  Json.obj [("port", Json.num (intLit inst.Port.val)), ("key_path", Json.str inst.KeyPath),
    ("cert_path", Json.str inst.CertPath), ("debug", Json.bool inst.Debug),
    ("use_ssl", Json.bool inst.UseSSL), ("payloads", mapJson inst.PayloadHostPaths)]

/-- The JSON value a `[]instanceConfig` is encoded as. -/
def instancesJson : Option (List instanceConfig) → Json
  | none => Json.null
  | some l => Json.arr (l.map instanceJson)

/-- The JSON value a `config` is encoded as. -/
def configJson (cfg : config) : Json := Json.obj [("instances", instancesJson cfg.Instances)]

/-! ## The configuration store

The store is the file at one fixed path.  What the operating system can do to a call
beyond the state of that file (an I/O error, a full disk) is given to the call as its
environment. -/

/-- `filepath.Join(".", "c3", "c2_code", "config.json")`, which `Join` cleans. -/
def configPath : String := "c3/c2_code/config.json"

/-- A regular file: its permission bits and its content. -/
structure File where
  mode : Nat
  data : List Char
deriving DecidableEq

/-- What is at `configPath`: nothing, or a file.  The file belongs to the user the profile
runs as, so the owner bits of its mode decide what an unprivileged profile may do. -/
structure FileSystem where
  file : Option File
deriving DecidableEq

/-- What surrounds one call: whether the process is privileged (permission bits are
not checked), its umask, and the failures the operating system injects: `readFault`
fails the read of an accessible file, `openFault` fails the opening of the file for
writing, `writeFault` fails the write after the given number of characters. -/
structure Env where
  privileged : Bool
  umask : Nat
  readFault : Option String
  openFault : Option String
  writeFault : Option (Nat × String)

/-- The owner may read (bit `0400`). -/
def ownerCanRead (mode : Nat) : Bool := mode / 256 % 2 = 1

/-- The owner may write (bit `0200`). -/
def ownerCanWrite (mode : Nat) : Bool := mode / 128 % 2 = 1

/-- The mode a file is created with: the permission bits of `perm` that the umask does
not clear. -/
def createMode (perm umask : Nat) : Nat := Nat.land (perm % 512) (Nat.xor 511 (umask % 512))

/-- `os.ReadFile(configPath)`. -/
def os.ReadFile (env : Env) (fs : FileSystem) : Except GoError (List Char) :=
  match fs.file with
  | none => Except.error (GoError.pathError "open" configPath "no such file or directory")
  | some f =>
    if !(env.privileged || ownerCanRead f.mode) then
      Except.error (GoError.pathError "open" configPath "permission denied")
    else
      match env.readFault with
      | some msg => Except.error (GoError.pathError "read" configPath msg)
      | none => Except.ok f.data

/-- `os.WriteFile(configPath, data, perm)`: the file is opened write-only with
`O_CREATE|O_TRUNC` (created with `perm` when absent, emptied when present), then the
data is written to it.  The error, when there is one, and the state left behind. -/
def os.WriteFile (env : Env) (data : List Char) (perm : Nat) (fs : FileSystem) :
    Option GoError × FileSystem :=
  match env.openFault with
  | some msg => (some (GoError.pathError "open" configPath msg), fs)
  | none =>
    let opened : Option File :=
      match fs.file with
      | none => some { mode := createMode perm env.umask, data := [] }
      | some f => if env.privileged || ownerCanWrite f.mode then some { f with data := [] } else none
    match opened with
    | none => (some (GoError.pathError "open" configPath "permission denied"), fs)
    | some f =>
      match env.writeFault with
      | some (n, msg) =>
        (some (GoError.pathError "write" configPath msg), { file := some { f with data := data.take n } })
      | none => (none, { file := some { f with data := data } })

/-- `getC2JsonConfig` (builder.go, lines 24-34).  The line logged on a decoding error is
not part of the result. -/
def getC2JsonConfig (env : Env) (fs : FileSystem) : Except GoError config :=
  match os.ReadFile env fs with
  | Except.error err => Except.error err
  | Except.ok configBytes =>
    match json.Unmarshal configBytes with
    | Except.error err => Except.error err
    | Except.ok currentConfig => Except.ok currentConfig

/-- `writeC2JsonConfig` (builder.go, lines 35-41).  `json.MarshalIndent` returns no error
on a `config`, so the early return is never taken.  The mode is the decimal `644` of the
source. -/
def writeC2JsonConfig (env : Env) (cfg : config) (fs : FileSystem) : Option GoError × FileSystem :=
  os.WriteFile env (json.MarshalIndent cfg) 644 fs

/-- Request of the file hosting. -/
structure C2HostFileMessage where
  HostURL : String
  FileUUID : String
deriving DecidableEq

/-- Response of the file hosting. -/
structure C2HostFileMessageResponse where
  Success : Bool
  Error : String
deriving DecidableEq, Repr

/-- `HostFileFunction` (builder.go, lines 91-115): the response and the state of the
store after the call. -/
def HostFileFunction (env : Env) (message : C2HostFileMessage) (fs : FileSystem) :
    C2HostFileMessageResponse × FileSystem :=
  match getC2JsonConfig env fs with
  | Except.error err => ({ Success := false, Error := err.Error }, fs)
  | Except.ok cfg =>
    match writeC2JsonConfig env
        (addOrUpdateHostedPath cfg message.HostURL message.FileUUID) fs with
    | (some err, fs1) => ({ Success := false, Error := err.Error }, fs1)
    | (none, fs1) => ({ Success := true, Error := "" }, fs1)

/-! ### Two calls at once

The host may run two calls of `HostFileFunction` at the same time.  A call touches the
store twice, when it loads and when it saves; in between it holds the document in its
own memory.  The two touches are taken as the steps of a call, and a schedule says whose
step is next. -/

/-- Where a call of `HostFileFunction` stands: not started, holding the updated
document it is about to save, or returned. -/
inductive CallState where
  | start (message : C2HostFileMessage)
  | loaded (cfg : config)
  | returned (response : C2HostFileMessageResponse)
deriving DecidableEq

/-- One step of a call: the load with the instance loop, or the save. -/
def stepCall (env : Env) (c : CallState) (fs : FileSystem) : CallState × FileSystem :=
  match c with
  | CallState.start message =>
    match getC2JsonConfig env fs with
    | Except.error err => (CallState.returned { Success := false, Error := err.Error }, fs)
    | Except.ok cfg =>
      (CallState.loaded (addOrUpdateHostedPath cfg message.HostURL message.FileUUID), fs)
  | CallState.loaded cfg =>
    match writeC2JsonConfig env cfg fs with
    | (some err, fs1) => (CallState.returned { Success := false, Error := err.Error }, fs1)
    | (none, fs1) => (CallState.returned { Success := true, Error := "" }, fs1)
  | CallState.returned response => (CallState.returned response, fs)

/-- Two calls and the store they share. -/
structure TwoCalls where
  first : CallState
  second : CallState
  fs : FileSystem
deriving DecidableEq

/-- Runs a schedule: `false` lets the first call take its next step, `true` the second. -/
def runSchedule (env1 env2 : Env) : List Bool → TwoCalls → TwoCalls
  | [], st => st
  | false :: rest, st =>
    runSchedule env1 env2 rest
      { st with first := (stepCall env1 st.first st.fs).1, fs := (stepCall env1 st.first st.fs).2 }
  | true :: rest, st =>
    runSchedule env1 env2 rest
      { st with second := (stepCall env2 st.second st.fs).1, fs := (stepCall env2 st.second st.fs).2 }

/-! ### Sample inputs -/

/-- The text of a document with two instances: the first has no route map, the second
routes `/a` (`\x7b` and `\x7d` are the braces):
`{"instances": [{"port": 80, "payloads": null},
  {"port": 443, "use_ssl": true, "payloads": {"/a": "0"}}]}`. -/
def sampleText : String :=
  "\x7b\"instances\": [\x7b\"port\": 80, \"payloads\": null\x7d, \x7b\"port\": 443, \"use_ssl\": true, \"payloads\": \x7b\"/a\": \"0\"\x7d\x7d]\x7d"

/-- A store holding the sample document in a file with mode `0644`. -/
def sampleStore : FileSystem := { file := some { mode := 420, data := sampleText.data } }

/-- A store without the configuration file. -/
def emptyStore : FileSystem := { file := none }

/-- An unprivileged process with umask `022` and no failure injected. -/
def sampleEnv : Env :=
  { privileged := false, umask := 18, readFault := none, openFault := none, writeFault := none }

/-- The first instance of the sample document. -/
def sampleInstance1 : instanceConfig := { zeroInstance with Port := ⟨80, by decide⟩ }

/-- The second instance of the sample document. -/
def sampleInstance2 : instanceConfig :=
  { zeroInstance with Port := ⟨443, by decide⟩, UseSSL := true,
                      PayloadHostPaths := some (StrMap.empty.insert "/a" "0") }

/-- The sample document. -/
def sampleDoc : config := { Instances := some [sampleInstance1, sampleInstance2] }

/-- The sample environment with a disk that fills up after twelve characters. -/
def fullDiskEnv : Env :=
  { privileged := false, umask := 18, readFault := none, openFault := none,
    writeFault := some (12, "no space left on device") }

/-- A request that hosts file `1` at `/b`. -/
def messageB : C2HostFileMessage := { HostURL := "/b", FileUUID := "1" }

/-- A request that hosts file `2` at `/c`. -/
def messageC : C2HostFileMessage := { HostURL := "/c", FileUUID := "2" }

/-- Two calls, hosting `/b` and `/c`, that have not started, on the sample store. -/
def twoCallsStart : TwoCalls :=
  { first := CallState.start messageB, second := CallState.start messageC, fs := sampleStore }

/-- Both calls load before either saves. -/
def overlappingSchedule : List Bool := [false, true, false, true]

/-- The first call returns before the second starts. -/
def serialSchedule : List Bool := [false, false, true, true]

/-! ## The parameter schema -/

/-- Modelled from the spec: the parameter types of the host framework's `c2structs`
package (not part of this repository): "one of String, Number, Boolean, Date,
ChooseOne". -/
inductive C2ParameterType where
  | C2_PARAMETER_TYPE_STRING
  | C2_PARAMETER_TYPE_NUMBER
  | C2_PARAMETER_TYPE_BOOLEAN
  | C2_PARAMETER_TYPE_DATE
  | C2_PARAMETER_TYPE_CHOOSE_ONE
deriving DecidableEq, Repr

/-- The `interface{}` held by the `DefaultValue` field: unset (nil), or one of the
literals the schema uses. -/
inductive GoDefault where
  | unset
  | int (n : Int)
  | bool (b : Bool)
  | string (s : String)
deriving DecidableEq, Repr

/-- The fields of `c2structs.C2Parameter` that the schema sets; a field that a literal
leaves out has the zero value of its Go type. -/
structure C2Parameter where
  Name : String
  Description : String
  DefaultValue : GoDefault
  ParameterType : C2ParameterType
  Required : Bool
  VerifierRegex : String
  FormatString : String
  IsCryptoType : Bool
  Randomize : Bool
  Choices : List String
deriving DecidableEq, Repr

/-- The pattern of the `pipename` parameter (builder.go, lines 121-122, a raw string). -/
def pipenamePattern : String :=
  "[a-z0-9]{8}\\-[a-z0-9]{4}\\-[a-z0-9]{4}\\-[a-z0-9]{4}\\-[a-z0-9]{12}"

/-- `C3c2parameters` (builder.go, lines 117-169). -/
def C3c2parameters : List C2Parameter :=
  [ { Name := "pipename", Description := "Named Pipe", DefaultValue := GoDefault.unset,
      VerifierRegex := pipenamePattern, FormatString := pipenamePattern,
      ParameterType := C2ParameterType.C2_PARAMETER_TYPE_STRING,
      Randomize := true, Required := true, IsCryptoType := false, Choices := [] },
    { Name := "killdate", Description := "Kill Date", DefaultValue := GoDefault.int 30,
      ParameterType := C2ParameterType.C2_PARAMETER_TYPE_DATE, Required := false,
      VerifierRegex := "", FormatString := "", IsCryptoType := false, Randomize := false,
      Choices := [] },
    { Name := "encrypted_exchange_check", Description := "Perform Key Exchange",
      DefaultValue := GoDefault.bool true,
      ParameterType := C2ParameterType.C2_PARAMETER_TYPE_BOOLEAN, Required := false,
      VerifierRegex := "", FormatString := "", IsCryptoType := false, Randomize := false,
      Choices := [] },
    { Name := "callback_jitter", Description := "Callback Jitter in percent",
      DefaultValue := GoDefault.int 5,
      ParameterType := C2ParameterType.C2_PARAMETER_TYPE_NUMBER, Required := false,
      VerifierRegex := "^[0-9]+$", FormatString := "", IsCryptoType := false,
      Randomize := false, Choices := [] },
    { Name := "AESPSK", Description := "Encryption Type",
      DefaultValue := GoDefault.string "aes256_hmac",
      ParameterType := C2ParameterType.C2_PARAMETER_TYPE_CHOOSE_ONE, Required := false,
      IsCryptoType := true, Choices := ["aes256_hmac", "none"],
      VerifierRegex := "", FormatString := "", Randomize := false },
    { Name := "callback_interval", Description := "Callback Interval in seconds",
      DefaultValue := GoDefault.int 30,
      ParameterType := C2ParameterType.C2_PARAMETER_TYPE_NUMBER, Required := false,
      VerifierRegex := "^[0-9]+$", FormatString := "", IsCryptoType := false,
      Randomize := false, Choices := [] } ]

/-! ### Regular expressions of the schema -/

/-- How often an element of a pattern repeats: once, `{n}`, or `+`. -/
inductive Quant where
  | one
  | exact (n : Nat)
  | plus
deriving DecidableEq, Repr

/-- One element of a pattern: `^`, `$`, or a set of characters (inclusive ranges; a
literal character is the range from itself to itself) with its repetition. -/
inductive Item where
  | bol
  | eol
  | rep (cls : List (Char × Char)) (q : Quant)
deriving DecidableEq, Repr

/-- Reads the inside of a bracket expression up to the closing bracket. -/
def parseClassBody : List Char → List (Char × Char) → Option (List (Char × Char) × List Char)
  | [], _ => none
  | ']' :: rest, acc => some (acc.reverse, rest)
  | a :: '-' :: b :: rest, acc =>
    if a = Char.ofNat 92 ∨ a = '[' ∨ b = Char.ofNat 92 ∨ b = '[' ∨ b = ']' then none
    else parseClassBody rest ((a, b) :: acc)
  | a :: rest, acc =>
    if a = Char.ofNat 92 ∨ a = '[' ∨ a = '^' then none
    else parseClassBody rest ((a, a) :: acc)

/-- Reads the repetition that follows an element, when there is one. -/
def parseQuant : List Char → Option (Quant × List Char)
  | '+' :: rest => some (Quant.plus, rest)
  | '{' :: rest =>
    match rest.span Char.isDigit with
    | (ds, '}' :: rest1) => if ds.isEmpty then none else some (Quant.exact (digitsValue ds), rest1)
    | _ => none
  | '*' :: _ => none
  | '?' :: _ => none
  | rest => some (Quant.one, rest)

/-- Reads a pattern written in the part of the regular expression syntax the schema
uses: `^`, `$`, bracket expressions of characters and ranges, literal characters,
backslash-escaped punctuation, and the repetitions `{n}` and `+`.  Anything else is not
read (`none`). -/
def parseItems : Nat → List Char → Option (List Item)
  | _, [] => some []
  | 0, _ :: _ => none
  | fuel + 1, c :: rest =>
    if c = '^' then (parseItems fuel rest).map (fun r => Item.bol :: r)
    else if c = '$' then (parseItems fuel rest).map (fun r => Item.eol :: r)
    else if c = '[' then
      match parseClassBody rest [] with
      | none => none
      | some (cls, rest1) =>
        match parseQuant rest1 with
        | none => none
        | some (q, rest2) => (parseItems fuel rest2).map (fun r => Item.rep cls q :: r)
    else if c = Char.ofNat 92 then
      match rest with
      | [] => none
      | e :: rest1 =>
        if e.isAlphanum then none
        else
          match parseQuant rest1 with
          | none => none
          | some (q, rest2) => (parseItems fuel rest2).map (fun r => Item.rep [(e, e)] q :: r)
    else if c = '(' ∨ c = ')' ∨ c = '|' ∨ c = '.' ∨ c = '*' ∨ c = '+' ∨ c = '?' ∨ c = '{'
        ∨ c = '}' ∨ c = ']' then none
    else
      match parseQuant rest with
      | none => none
      | some (q, rest2) => (parseItems fuel rest2).map (fun r => Item.rep [(c, c)] q :: r)

/-- The pattern text as a sequence of elements. -/
def parseRegex (pattern : String) : Option (List Item) :=
  parseItems pattern.data.length pattern.data

/-- Membership of a character in a set of inclusive ranges. -/
def inClass (cls : List (Char × Char)) (c : Char) : Bool :=
  cls.any (fun r => decide (r.1.toNat ≤ c.toNat) && decide (c.toNat ≤ r.2.toNat))

/-- Consumes exactly `n` characters of the set; what is left, if that is possible. -/
def takeClass (cls : List (Char × Char)) : Nat → List Char → Option (List Char)
  | 0, s => some s
  | _ + 1, [] => none
  | n + 1, c :: t => if inClass cls c then takeClass cls n t else none

/-- Everything that can be left after consuming one or more characters of the set. -/
def plusTails (cls : List (Char × Char)) : List Char → List (List Char)
  | [] => []
  | c :: t => if inClass cls c then t :: plusTails cls t else []

/-- Whether the elements match the whole of the remaining input; `atStart` says that
nothing has been consumed yet. -/
def matchFrom : List Item → Bool → List Char → Bool
  | [], _, s => s.isEmpty
  | Item.bol :: r, atStart, s => atStart && matchFrom r atStart s
  | Item.eol :: r, atStart, s => s.isEmpty && matchFrom r atStart s
  | Item.rep cls Quant.one :: r, _, s =>
    match takeClass cls 1 s with
    | some t => matchFrom r false t
    | none => false
  | Item.rep cls (Quant.exact n) :: r, atStart, s =>
    match takeClass cls n s with
    | some t => matchFrom r (atStart && decide (n = 0)) t
    | none => false
  | Item.rep cls Quant.plus :: r, _, s =>
    (plusTails cls s).any (fun t => matchFrom r false t)

/-- Modelled from the spec: the check of a value against a `validationPattern` is done by
the host framework, not by this repository; the specification says the value's string
form "must fully match" the regular expression.  A pattern that cannot be read matches
nothing. -/
def fullMatch (pattern : String) (value : String) : Bool :=
  match parseRegex pattern with
  | some items => matchFrom items true value.data
  | none => false

/-- Modelled from the spec: a parameter without a validation pattern (the empty
`VerifierRegex`) accepts every value; one with a pattern accepts the values that fully
match it. -/
def C2Parameter.accepts (p : C2Parameter) (value : String) : Bool :=
  p.VerifierRegex.isEmpty || fullMatch p.VerifierRegex value

/-- One of the characters `a`-`z`, `0`-`9`. -/
def isLowerAlnum (c : Char) : Bool :=
  (decide (97 ≤ c.toNat) && decide (c.toNat ≤ 122)) ||
  (decide (48 ≤ c.toNat) && decide (c.toNat ≤ 57))

/-- The UUID-like shape: five groups of 8, 4, 4, 4 and 12 characters of `a`-`z`,
`0`-`9`, separated by hyphens, and nothing else. -/
def UuidShaped (s : String) : Prop :=
  ∃ g1 g2 g3 g4 g5 : List Char,
    s.data = g1 ++ '-' :: (g2 ++ '-' :: (g3 ++ '-' :: (g4 ++ '-' :: g5))) ∧
    g1.length = 8 ∧ g2.length = 4 ∧ g3.length = 4 ∧ g4.length = 4 ∧ g5.length = 12 ∧
    ∀ c ∈ g1 ++ g2 ++ g3 ++ g4 ++ g5, isLowerAlnum c = true

/-- The string form (`%v`) of a default value. -/
def GoDefault.stringForm : GoDefault → Option String
  | GoDefault.unset => none
  | GoDefault.int n => some (String.mk (intLit n))
  | GoDefault.bool b => some (if b then "true" else "false")
  | GoDefault.string s => some s

/-! ## Theorems -/

/-- C1: `configCheck` fails with the error "Failed to get pipename attribute" exactly
when the key "pipename" is absent from the parameter map, and succeeds with no error
when the key is present, whatever value it is bound to. -/
theorem configCheck_pipename_presence (sprintV : C2ConfigCheckMessage → String)
    (message : C2ConfigCheckMessage) :
    (message.Parameters "pipename" = none →
      (ConfigCheckFunction sprintV message).Success = false ∧
      (ConfigCheckFunction sprintV message).Error = "Failed to get pipename attribute") ∧
    (∀ v, message.Parameters "pipename" = some v →
      (ConfigCheckFunction sprintV message).Success = true ∧
      (ConfigCheckFunction sprintV message).Error = "") := by
  constructor
  · intro h
    simp [ConfigCheckFunction, h]
  · intro v h
    simp [ConfigCheckFunction, h]

/-- C2: `getIOC` answers with success and the single indicator of kind "pipename"
carrying the supplied string unchanged when "pipename" is bound to a string (so for
"11111111-2222-3333-4444-555555555555"), and with failure, the error "Failed to get
pipename" and no indicator when "pipename" is missing or bound to something that is not a
string. -/
theorem getIOC_response (message : C2GetIOCMessage) :
    (∀ v, message.Parameters "pipename" = some (GoValue.string v) →
      GetIOCFunction message =
        { Success := true, Error := "", IOCs := [{ Type_ := "pipename", IOC := v }] }) ∧
    ((message.Parameters "pipename" = none ∨
        ∃ x, message.Parameters "pipename" = some x ∧ ∀ v, x ≠ GoValue.string v) →
      GetIOCFunction message =
        { Success := false, Error := "Failed to get pipename", IOCs := [] }) ∧
    GetIOCFunction { Parameters := fun k =>
        if k = "pipename" then some (GoValue.string "11111111-2222-3333-4444-555555555555")
        else none } =
      { Success := true, Error := "",
        IOCs := [{ Type_ := "pipename", IOC := "11111111-2222-3333-4444-555555555555" }] } := by
  refine ⟨?_, ?_, ?_⟩
  · intro v h
    simp [GetIOCFunction, C2GetIOCMessage.GetStringArg, h]
  · rintro (h | ⟨x, h, hx⟩)
    · simp [GetIOCFunction, C2GetIOCMessage.GetStringArg, h]
    · cases x <;> simp_all [GetIOCFunction, C2GetIOCMessage.GetStringArg]
  · simp [GetIOCFunction, C2GetIOCMessage.GetStringArg]

/-! ### The instance loop -/

theorem keyLt_irrefl (k : String) : ¬ keyLt k k := lt_irrefl (α := List Char) _

theorem insertEntry_idem (k v : String) (l : List (String × String)) :
    insertEntry k v (insertEntry k v l) = insertEntry k v l := by
  induction l with
  | nil => simp [insertEntry, keyLt_irrefl]
  | cons hd t ih =>
    obtain ⟨k', v'⟩ := hd
    by_cases h1 : keyLt k k'
    · simp [insertEntry, h1, keyLt_irrefl]
    · by_cases h2 : k = k'
      · subst h2
        simp [insertEntry, keyLt_irrefl]
      · simp [insertEntry, h1, h2, ih]

theorem lookupEntry_insertEntry_self (k v : String) (l : List (String × String)) :
    lookupEntry k (insertEntry k v l) = some v := by
  induction l with
  | nil => simp [insertEntry, lookupEntry]
  | cons hd t ih =>
    obtain ⟨k', v'⟩ := hd
    by_cases h1 : keyLt k k'
    · simp [insertEntry, h1, lookupEntry]
    · by_cases h2 : k = k'
      · subst h2
        simp [insertEntry, keyLt_irrefl, lookupEntry]
      · simp [insertEntry, h1, h2, lookupEntry, ih]

theorem lookupEntry_insertEntry_other (k v j : String) (l : List (String × String))
    (hj : j ≠ k) : lookupEntry j (insertEntry k v l) = lookupEntry j l := by
  induction l with
  | nil => simp [insertEntry, lookupEntry, hj]
  | cons hd t ih =>
    obtain ⟨k', v'⟩ := hd
    by_cases h1 : keyLt k k'
    · simp [insertEntry, h1, lookupEntry, hj]
    · by_cases h2 : k = k'
      · subst h2
        simp [insertEntry, h1, lookupEntry, hj]
      · simp [insertEntry, h1, h2, lookupEntry, ih]

theorem StrMap.ext_entries (a b : StrMap) (h : a.entries = b.entries) : a = b := by
  cases a
  cases b
  simpa using h

theorem setHostedPath_idem (u f : String) (inst : instanceConfig) :
    setHostedPath u f (setHostedPath u f inst) = setHostedPath u f inst := by
  cases inst with
  | mk port kp cp dbg ssl paths =>
    cases paths <;>
      simp [setHostedPath, StrMap.insert, insertEntry_idem]

theorem setHostedPath_hostedPath_self (u f : String) (inst : instanceConfig) :
    (setHostedPath u f inst).hostedPath u = some f := by
  simp [setHostedPath, instanceConfig.hostedPath, StrMap.lookup, StrMap.insert,
    lookupEntry_insertEntry_self]

theorem setHostedPath_hostedPath_other (u f k : String) (inst : instanceConfig) (hk : k ≠ u) :
    (setHostedPath u f inst).hostedPath k = inst.hostedPath k := by
  cases inst with
  | mk port kp cp dbg ssl paths =>
    cases paths <;>
      simp [setHostedPath, instanceConfig.hostedPath, StrMap.lookup, StrMap.insert,
        lookupEntry_insertEntry_other _ _ _ _ hk, StrMap.empty, lookupEntry, insertEntry, hk]

theorem addOrUpdateHostedPath_instanceList (cfg : config) (u f : String) :
    (addOrUpdateHostedPath cfg u f).instanceList = cfg.instanceList.map (setHostedPath u f) := by
  cases cfg with
  | mk insts => cases insts <;> simp [addOrUpdateHostedPath, config.instanceList]

/-- C5: the instance loop of `hostFile` is idempotent: run twice with the same
`(hostURL, fileID)` it yields the document that one run yields, whether or not
instances start with a nil `PayloadHostPaths`. -/
theorem addOrUpdateHostedPath_idempotent (D : config) (hostURL fileID : String) :
    addOrUpdateHostedPath (addOrUpdateHostedPath D hostURL fileID) hostURL fileID =
      addOrUpdateHostedPath D hostURL fileID := by
  cases D with
  | mk insts =>
    cases insts with
    | none => rfl
    | some l =>
      simp only [addOrUpdateHostedPath, Option.map_some', List.map_map, config.mk.injEq,
        Option.some.injEq]
      apply List.map_congr_left
      intro a _
      exact setHostedPath_idem hostURL fileID a

/-! ### The parameter schema -/

theorem takeClass_eq_some (cls : List (Char × Char)) (n : Nat) (s t : List Char) :
    takeClass cls n s = some t ↔
      ∃ g, s = g ++ t ∧ g.length = n ∧ ∀ c ∈ g, inClass cls c = true := by
  induction n generalizing s with
  | zero =>
    constructor
    · intro h
      simp only [takeClass, Option.some.injEq] at h
      exact ⟨[], by simp [h], rfl, by simp⟩
    · rintro ⟨g, hs, hg, _⟩
      have : g = [] := List.length_eq_zero.1 hg
      subst this
      simp [takeClass, hs]
  | succ n ih =>
    cases s with
    | nil =>
      constructor
      · intro h
        simp [takeClass] at h
      · rintro ⟨g, hs, hg, _⟩
        cases g with
        | nil => simp at hg
        | cons a g => simp at hs
    | cons c s =>
      constructor
      · intro h
        by_cases hc : inClass cls c = true
        · simp only [takeClass, hc, if_true] at h
          obtain ⟨g, hs, hg, hall⟩ := (ih s).1 h
          refine ⟨c :: g, by simp [hs], by simp [hg], ?_⟩
          intro x hx
          rcases List.mem_cons.1 hx with hx | hx
          · exact hx ▸ hc
          · exact hall x hx
        · simp [takeClass, hc] at h
      · rintro ⟨g, hs, hg, hall⟩
        cases g with
        | nil => simp at hg
        | cons a g =>
          simp only [List.cons_append, List.cons.injEq] at hs
          obtain ⟨rfl, hs⟩ := hs
          have hc : inClass cls c = true := hall c (List.mem_cons_self _ _)
          simp only [takeClass, hc, if_true]
          exact (ih s).2 ⟨g, hs, by simpa using hg, fun x hx => hall x (List.mem_cons_of_mem _ hx)⟩

theorem inClass_lowerAlnum (c : Char) :
    inClass [('a', 'z'), ('0', '9')] c = isLowerAlnum c := by
  simp [inClass, isLowerAlnum, List.any]

theorem inClass_hyphen (c : Char) : inClass [('-', '-')] c = true ↔ c = '-' := by
  simp only [inClass, List.any, Bool.or_false, Bool.and_eq_true, decide_eq_true_eq]
  constructor
  · rintro ⟨h1, h2⟩
    have h : c.toNat = ('-' : Char).toNat := Nat.le_antisymm h2 h1
    have h3 : c.val = ('-' : Char).val := UInt32.toNat.inj h
    exact Char.ext h3
  · rintro rfl
    exact ⟨Nat.le_refl _, Nat.le_refl _⟩

theorem parseRegex_pipenamePattern :
    parseRegex pipenamePattern =
      some [Item.rep [('a', 'z'), ('0', '9')] (Quant.exact 8), Item.rep [('-', '-')] Quant.one,
        Item.rep [('a', 'z'), ('0', '9')] (Quant.exact 4), Item.rep [('-', '-')] Quant.one,
        Item.rep [('a', 'z'), ('0', '9')] (Quant.exact 4), Item.rep [('-', '-')] Quant.one,
        Item.rep [('a', 'z'), ('0', '9')] (Quant.exact 4), Item.rep [('-', '-')] Quant.one,
        Item.rep [('a', 'z'), ('0', '9')] (Quant.exact 12)] := by
  decide

theorem takeClass_hyphen (s t : List Char) :
    takeClass [('-', '-')] 1 s = some t ↔ s = '-' :: t := by
  rw [takeClass_eq_some]
  constructor
  · rintro ⟨g, hs, hg, hall⟩
    match g, hg, hall with
    | [c], _, hall =>
      have : c = '-' := (inClass_hyphen c).1 (hall c (List.mem_singleton_self c))
      subst this
      simpa using hs
  · rintro rfl
    exact ⟨['-'], rfl, rfl, by
      intro c hc
      rw [List.mem_singleton] at hc
      exact (inClass_hyphen c).2 hc⟩

theorem fullMatch_pipenamePattern (s : String) :
    fullMatch pipenamePattern s = true ↔ UuidShaped s := by
  unfold fullMatch
  rw [parseRegex_pipenamePattern]
  simp only [matchFrom]
  constructor
  · intro h
    split at h
    next t1 h1 =>
      split at h
      next t2 h2 =>
        split at h
        next t3 h3 =>
          split at h
          next t4 h4 =>
            split at h
            next t5 h5 =>
              split at h
              next t6 h6 =>
                split at h
                next t7 h7 =>
                  split at h
                  next t8 h8 =>
                    split at h
                    next t9 h9 =>
                      rw [takeClass_eq_some] at h1 h3 h5 h7 h9
                      rw [takeClass_hyphen] at h2 h4 h6 h8
                      obtain ⟨g1, e1, l1, a1⟩ := h1
                      obtain ⟨g2, e3, l2, a2⟩ := h3
                      obtain ⟨g3, e5, l3, a3⟩ := h5
                      obtain ⟨g4, e7, l4, a4⟩ := h7
                      obtain ⟨g5, e9, l5, a5⟩ := h9
                      have ht9 : t9 = [] := by simpa using h
                      subst ht9
                      refine ⟨g1, g2, g3, g4, g5, ?_, l1, l2, l3, l4, l5, ?_⟩
                      · rw [e1, h2, e3, h4, e5, h6, e7, h8, e9]
                        simp
                      · intro c hc
                        simp only [List.mem_append] at hc
                        rw [← inClass_lowerAlnum]
                        rcases hc with (((hc | hc) | hc) | hc) | hc
                        · exact a1 c hc
                        · exact a2 c hc
                        · exact a3 c hc
                        · exact a4 c hc
                        · exact a5 c hc
                    next => simp at h
                  next => simp at h
                next => simp at h
              next => simp at h
            next => simp at h
          next => simp at h
        next => simp at h
      next => simp at h
    next => simp at h
  · rintro ⟨g1, g2, g3, g4, g5, hs, l1, l2, l3, l4, l5, hall⟩
    have hcls : ∀ g : List Char, (∀ c ∈ g, c ∈ g1 ++ g2 ++ g3 ++ g4 ++ g5) →
        ∀ c ∈ g, inClass [('a', 'z'), ('0', '9')] c = true := by
      intro g hg c hc
      rw [inClass_lowerAlnum]
      exact hall c (hg c hc)
    have h1 : takeClass [('a', 'z'), ('0', '9')] 8 s.data =
        some ('-' :: (g2 ++ '-' :: (g3 ++ '-' :: (g4 ++ '-' :: g5)))) :=
      (takeClass_eq_some _ _ _ _).2 ⟨g1, hs, l1, hcls g1 (by intro c hc; simp [hc])⟩
    have h2 : takeClass [('a', 'z'), ('0', '9')] 4 (g2 ++ '-' :: (g3 ++ '-' :: (g4 ++ '-' :: g5))) =
        some ('-' :: (g3 ++ '-' :: (g4 ++ '-' :: g5))) :=
      (takeClass_eq_some _ _ _ _).2 ⟨g2, rfl, l2, hcls g2 (by intro c hc; simp [hc])⟩
    have h3 : takeClass [('a', 'z'), ('0', '9')] 4 (g3 ++ '-' :: (g4 ++ '-' :: g5)) =
        some ('-' :: (g4 ++ '-' :: g5)) :=
      (takeClass_eq_some _ _ _ _).2 ⟨g3, rfl, l3, hcls g3 (by intro c hc; simp [hc])⟩
    have h4 : takeClass [('a', 'z'), ('0', '9')] 4 (g4 ++ '-' :: g5) = some ('-' :: g5) :=
      (takeClass_eq_some _ _ _ _).2 ⟨g4, rfl, l4, hcls g4 (by intro c hc; simp [hc])⟩
    have h5 : takeClass [('a', 'z'), ('0', '9')] 12 g5 = some [] :=
      (takeClass_eq_some _ _ _ _).2 ⟨g5, by simp, l5, hcls g5 (by intro c hc; simp [hc])⟩
    have hd : ∀ t : List Char, takeClass [('-', '-')] 1 ('-' :: t) = some t :=
      fun t => (takeClass_hyphen _ _).2 rfl
    simp [h1, h2, h3, h4, h5, hd]

theorem UuidShaped.length_eq (s : String) (h : UuidShaped s) : s.data.length = 36 := by
  obtain ⟨g1, g2, g3, g4, g5, hs, l1, l2, l3, l4, l5, _⟩ := h
  rw [hs]
  simp [l1, l2, l3, l4, l5]

/-- C9: with the validation pattern applied as the specification says (the value must
fully match it), the `pipename` parameter of the schema accepts a string exactly when
the whole string is five hyphen-separated groups of 8, 4, 4, 4 and 12 characters drawn
from `a`-`z` and `0`-`9`; the sample UUID is accepted, and it is rejected as soon as a
character is added in front of it or behind it. -/
theorem pipename_accepts_iff_uuidShaped :
    (∃ p ∈ C3c2parameters, p.Name = "pipename") ∧
    (∀ p ∈ C3c2parameters, p.Name = "pipename" →
      ∀ s : String, p.accepts s = true ↔ UuidShaped s) ∧
    (∀ p ∈ C3c2parameters, p.Name = "pipename" →
      p.accepts "11111111-2222-3333-4444-555555555555" = true ∧
      ∀ pre post : String, pre ≠ "" ∨ post ≠ "" →
        p.accepts (pre ++ "11111111-2222-3333-4444-555555555555" ++ post) = false) := by
  have key : ∀ p ∈ C3c2parameters, p.Name = "pipename" →
      ∀ s : String, p.accepts s = true ↔ UuidShaped s := by
    intro p hp hn s
    simp only [C3c2parameters, List.mem_cons, List.mem_singleton, List.not_mem_nil,
      or_false] at hp
    rcases hp with rfl | rfl | rfl | rfl | rfl | rfl
    · have he : pipenamePattern.isEmpty = false := by decide
      simp only [C2Parameter.accepts, he, Bool.false_or]
      exact fullMatch_pipenamePattern s
    all_goals exact absurd hn (by decide)
  refine ⟨⟨_, List.mem_cons_self _ _, rfl⟩, key, ?_⟩
  intro p hp hn
  constructor
  · simp only [C3c2parameters, List.mem_cons, List.mem_singleton, List.not_mem_nil,
      or_false] at hp
    rcases hp with rfl | rfl | rfl | rfl | rfl | rfl
    · decide
    all_goals exact absurd hn (by decide)
  · intro pre post hne
    rw [Bool.eq_false_iff]
    intro hacc
    have hlen := UuidShaped.length_eq _ ((key p hp hn _).1 hacc)
    simp only [String.data_append, List.length_append] at hlen
    have h36 : "11111111-2222-3333-4444-555555555555".data.length = 36 := by decide
    rw [h36] at hlen
    have h1 : pre.data = [] := List.length_eq_zero.1 (by omega)
    have h2 : post.data = [] := List.length_eq_zero.1 (by omega)
    rcases hne with h | h
    · exact h (String.ext h1)
    · exact h (String.ext h2)

/-- C10: the exported schema satisfies the invariant of the data model: its six names
are pairwise distinct; every `ChooseOne` parameter has choices and a default among
them (`AESPSK`: `aes256_hmac`); every default of a parameter with a validation pattern
has a string form that matches the pattern (`callback_jitter` 5 and `callback_interval`
30 against `^[0-9]+$`). -/
theorem C3c2parameters_invariant :
    C3c2parameters.map (fun p => p.Name) =
      ["pipename", "killdate", "encrypted_exchange_check", "callback_jitter", "AESPSK",
        "callback_interval"] ∧
    (C3c2parameters.map (fun p => p.Name)).Nodup ∧
    (∀ p ∈ C3c2parameters, p.ParameterType = C2ParameterType.C2_PARAMETER_TYPE_CHOOSE_ONE →
      p.Choices ≠ [] ∧ ∃ d, p.DefaultValue = GoDefault.string d ∧ d ∈ p.Choices) ∧
    (∀ p ∈ C3c2parameters, ∀ d, p.DefaultValue.stringForm = some d →
      p.VerifierRegex ≠ "" → fullMatch p.VerifierRegex d = true) ∧
    (∃ p ∈ C3c2parameters, p.Name = "AESPSK" ∧
      p.ParameterType = C2ParameterType.C2_PARAMETER_TYPE_CHOOSE_ONE ∧
      p.DefaultValue = GoDefault.string "aes256_hmac" ∧ p.Choices = ["aes256_hmac", "none"]) ∧
    (∃ p ∈ C3c2parameters, p.Name = "callback_jitter" ∧ p.VerifierRegex = "^[0-9]+$" ∧
      p.DefaultValue.stringForm = some "5") ∧
    (∃ p ∈ C3c2parameters, p.Name = "callback_interval" ∧ p.VerifierRegex = "^[0-9]+$" ∧
      p.DefaultValue.stringForm = some "30") := by
  refine ⟨by decide, by decide, ?_, ?_, by decide, by decide, by decide⟩
  · intro p hp ht
    simp only [C3c2parameters, List.mem_cons, List.mem_singleton, List.not_mem_nil,
      or_false] at hp
    rcases hp with rfl | rfl | rfl | rfl | rfl | rfl
    case inr.inr.inr.inr.inl => exact ⟨by decide, "aes256_hmac", rfl, by decide⟩
    all_goals exact absurd ht (by decide)
  · intro p hp d hd hv
    simp only [C3c2parameters, List.mem_cons, List.mem_singleton, List.not_mem_nil,
      or_false] at hp
    rcases hp with rfl | rfl | rfl | rfl | rfl | rfl
    · simp [GoDefault.stringForm] at hd
    · exact absurd rfl hv
    · exact absurd rfl hv
    · have : d = "5" := by
        have h5 : (GoDefault.int 5).stringForm = some "5" := by decide
        simp only [h5, Option.some.injEq] at hd
        exact hd.symm
      subst this
      decide
    · exact absurd rfl hv
    · have : d = "30" := by
        have h30 : (GoDefault.int 30).stringForm = some "30" := by decide
        simp only [h30, Option.some.injEq] at hd
        exact hd.symm
      subst this
      decide

/-! ### `json.Unmarshal` reads back what `json.MarshalIndent` writes -/

theorem skipSpace_replicate (n : Nat) (rest : List Char) :
    skipSpace (List.replicate n ' ' ++ rest) = skipSpace rest := by
  induction n with
  | zero => rfl
  | succ n ih =>
    rw [List.replicate_succ, List.cons_append]
    simp only [skipSpace]
    rw [if_pos (by decide), ih]

theorem skipSpace_newline (d : Nat) (rest : List Char) :
    skipSpace (newline d ++ rest) = skipSpace rest := by
  unfold newline
  rw [List.cons_append]
  simp only [skipSpace]
  rw [if_pos (by decide), skipSpace_replicate]

theorem skipSpace_cons (c : Char) (rest : List Char) (h : isSpace c = false) :
    skipSpace (c :: rest) = c :: rest := by
  simp [skipSpace, h]

theorem hexVal_hexDigit (n : Nat) (h : n < 16) : hexVal (hexDigit n) = some n := by
  revert n
  decide

theorem parseStringBody_quote (p : Option Nat) (rest : List Char) :
    parseStringBody p ('"' :: rest) = some (flushSurrogate p ([], rest)) := by
  rw [parseStringBody.eq_def]
  simp

theorem parseStringBody_plain (c : Char) (rest : List Char) (h1 : c ≠ '"')
    (h2 : c ≠ '\\') (h3 : ¬ c.toNat < 32) :
    parseStringBody none (c :: rest) =
      (parseStringBody none rest).map (fun r => (c :: r.1, r.2)) := by
  rw [parseStringBody.eq_def]
  simp [h1, h2, h3, flushSurrogate]

theorem parseStringBody_simple (e ch : Char) (rest : List Char) (h1 : e ≠ 'u')
    (h2 : simpleEscape e = some ch) :
    parseStringBody none ('\\' :: e :: rest) =
      (parseStringBody none rest).map (fun r => (ch :: r.1, r.2)) := by
  rw [parseStringBody.eq_def]
  simp [h1, h2, flushSurrogate]

theorem parseStringBody_unicode (h1 h2 h3 h4 : Char) (n : Nat) (rest : List Char)
    (hn : hex4 h1 h2 h3 h4 = some n) (hlo : n < 55296) :
    parseStringBody none ('\\' :: 'u' :: h1 :: h2 :: h3 :: h4 :: rest) =
      (parseStringBody none rest).map (fun r => (Char.ofNat n :: r.1, r.2)) := by
  rw [parseStringBody.eq_def]
  have a1 : ¬ (56320 ≤ n ∧ n < 57344) := by omega
  have a2 : ¬ (55296 ≤ n ∧ n < 56320) := by omega
  simp [hn, a1, a2, flushSurrogate]

theorem hex4_low (n : Nat) (h : n < 256) :
    hex4 '0' '0' (hexDigit (n / 16)) (hexDigit (n % 16)) = some n := by
  have e1 := hexVal_hexDigit (n / 16) (by omega)
  have e2 := hexVal_hexDigit (n % 16) (by omega)
  have e0 : hexVal '0' = some 0 := by decide
  simp only [hex4, e0, e1, e2]
  congr 1
  omega

theorem Char.ofNat_toNat_eq (c : Char) : Char.ofNat c.toNat = c := by
  simp

theorem parseStringBody_escapeChar (c : Char) (tail : List Char) :
    parseStringBody none (escapeChar c ++ tail) =
      (parseStringBody none tail).map (fun r => (c :: r.1, r.2)) := by
  unfold escapeChar
  split_ifs with h1 h2 h3 h4 h5 h6 h7
  · subst h1
    exact parseStringBody_simple _ _ _ (by decide) (by decide)
  · subst h2
    exact parseStringBody_simple _ _ _ (by decide) (by decide)
  · subst h3
    exact parseStringBody_simple _ _ _ (by decide) (by decide)
  · subst h4
    exact parseStringBody_simple _ _ _ (by decide) (by decide)
  · subst h5
    exact parseStringBody_simple _ _ _ (by decide) (by decide)
  · have hlt : c.toNat < 256 := by
      rcases h6 with h | h | h | h
      · omega
      · subst h; decide
      · subst h; decide
      · subst h; decide
    have := parseStringBody_unicode _ _ _ _ _ tail (hex4_low c.toNat hlt) (by omega)
    rw [Char.ofNat_toNat_eq] at this
    exact this
  · have hh : hex4 '2' '0' '2' (hexDigit (c.toNat % 16)) = some c.toNat := by
      rcases h7 with h | h <;> rw [h] <;> decide
    have := parseStringBody_unicode _ _ _ _ _ tail hh (by omega)
    rw [Char.ofNat_toNat_eq] at this
    exact this
  · have h6' : ¬ c.toNat < 32 := fun h => h6 (Or.inl h)
    exact parseStringBody_plain c tail h1 h2 h6'

theorem parseStringBody_escape (s rest : List Char) :
    parseStringBody none (escape s ++ '"' :: rest) = some (s, rest) := by
  induction s with
  | nil => simp [escape, parseStringBody_quote, flushSurrogate]
  | cons c t ih =>
    simp only [escape, List.append_assoc]
    rw [parseStringBody_escapeChar, ih]
    rfl

theorem isDigit_ofNat (k : Nat) (h : k < 10) : isDigit (Char.ofNat (48 + k)) = true := by
  revert k
  decide

theorem toNat_ofNat_digit (k : Nat) (h : k < 10) : (Char.ofNat (48 + k)).toNat - 48 = k := by
  revert k
  decide

theorem ofNat_digit_eq_zero (k : Nat) (h : k < 10) (h0 : Char.ofNat (48 + k) = '0') : k = 0 := by
  revert k
  decide

theorem digitsValue_append (l : List Char) (c : Char) :
    digitsValue (l ++ [c]) = digitsValue l * 10 + (c.toNat - 48) := by
  simp [digitsValue, List.foldl_append]

theorem digitsValue_cons_pos (d : Char) (ds : List Char) (hd : isDigit d = true) (h0 : d ≠ '0') :
    0 < digitsValue (d :: ds) := by
  have h1 : 0 < digitsValue [d] := by
    have : d.toNat ≠ 48 := by
      intro h
      apply h0
      exact Char.ext (UInt32.toNat.inj h)
    simp only [isDigit, Bool.and_eq_true, decide_eq_true_eq] at hd
    simp only [digitsValue, List.foldl]
    omega
  have : ∀ (l : List Char) (a : Nat), 0 < a → 0 < l.foldl (fun acc c => acc * 10 + (c.toNat - 48)) a := by
    intro l
    induction l with
    | nil => intro a ha; simpa using ha
    | cons x t ih =>
      intro a ha
      simp only [List.foldl]
      exact ih _ (by omega)
  simp only [digitsValue, List.foldl] at h1 ⊢
  exact this ds _ h1

theorem natDigits_spec (fuel : Nat) : ∀ (n : Nat) (acc : List Char), n < fuel →
    ∃ d ds, natDigits fuel n acc = d :: (ds ++ acc) ∧ isDigit d = true ∧
      ds.all isDigit = true ∧ (d = '0' → ds = []) ∧ digitsValue (d :: ds) = n := by
  induction fuel with
  | zero => intro n acc h; omega
  | succ fuel ih =>
    intro n acc h
    by_cases h10 : n < 10
    · refine ⟨Char.ofNat (48 + n), [], by simp [natDigits, h10], isDigit_ofNat n h10, rfl,
        fun _ => rfl, ?_⟩
      simp [digitsValue, toNat_ofNat_digit n h10]
    · obtain ⟨d, ds, h1, h2, h3, h4, h5⟩ :=
        ih (n / 10) (Char.ofNat (48 + n % 10) :: acc) (by omega)
      have hmod : n % 10 < 10 := Nat.mod_lt _ (by decide)
      refine ⟨d, ds ++ [Char.ofNat (48 + n % 10)], ?_, h2, ?_, ?_, ?_⟩
      · simp [natDigits, h10, h1]
      · simp [List.all_append, h3, isDigit_ofNat _ hmod]
      · intro hd
        have hds := h4 hd
        subst hds
        subst hd
        simp [digitsValue] at h5
        omega
      · have : d :: (ds ++ [Char.ofNat (48 + n % 10)]) = (d :: ds) ++ [Char.ofNat (48 + n % 10)] := rfl
        rw [this, digitsValue_append, h5, toNat_ofNat_digit _ hmod]
        omega

theorem natLit_spec (n : Nat) :
    ∃ d ds, natLit n = d :: ds ∧ isDigit d = true ∧ ds.all isDigit = true ∧
      (d = '0' → ds = []) ∧ digitsValue (d :: ds) = n := by
  obtain ⟨d, ds, h1, h2, h3, h4, h5⟩ := natDigits_spec (n + 1) n [] (Nat.lt_succ_self n)
  exact ⟨d, ds, by simpa [natLit] using h1, h2, h3, h4, h5⟩

theorem takeWhile_isDigit (ds rest : List Char) (h : ds.all isDigit = true) :
    (ds ++ ',' :: rest).takeWhile isDigit = ds ∧ (ds ++ ',' :: rest).dropWhile isDigit = ',' :: rest := by
  induction ds with
  | nil =>
    have : isDigit ',' = false := by decide
    simp [List.takeWhile, List.dropWhile, this]
  | cons d t ih =>
    simp only [List.all_cons, Bool.and_eq_true] at h
    simp [List.takeWhile, List.dropWhile, h.1, ih h.2]

theorem isDigit_ne (d : Char) (h : isDigit d = true) :
    d ≠ '-' ∧ d ≠ '{' ∧ d ≠ '[' ∧ d ≠ '"' ∧ d ≠ 't' ∧ d ≠ 'f' ∧ d ≠ 'n' ∧ isSpace d = false := by
  refine ⟨?_, ?_, ?_, ?_, ?_, ?_, ?_, ?_⟩
  · rintro rfl; revert h; decide
  · rintro rfl; revert h; decide
  · rintro rfl; revert h; decide
  · rintro rfl; revert h; decide
  · rintro rfl; revert h; decide
  · rintro rfl; revert h; decide
  · rintro rfl; revert h; decide
  · rw [Bool.eq_false_iff]
    intro hs
    simp only [isSpace, Bool.or_eq_true, decide_eq_true_eq] at hs
    rcases hs with ((hs | hs) | hs) | hs <;> (subst hs; revert h; decide)

theorem parseFraction_comma (rest : List Char) :
    parseFraction (',' :: rest) = some ([], ',' :: rest) := by
  simp [parseFraction]

theorem parseExponent_comma (rest : List Char) :
    parseExponent (',' :: rest) = some ([], ',' :: rest) := by
  simp [parseExponent]

theorem parseIntPart_natLit (n : Nat) (rest : List Char) :
    parseIntPart (natLit n ++ ',' :: rest) = some (natLit n, ',' :: rest) := by
  obtain ⟨d, ds, h1, h2, h3, h4, _⟩ := natLit_spec n
  rw [h1]
  by_cases h0 : d = '0'
  · have := h4 h0
    subst this
    subst h0
    simp [parseIntPart]
  · have hs := takeWhile_isDigit (d :: ds) rest (by simp [h2, h3])
    simp only [List.cons_append] at hs
    simp only [List.cons_append, parseIntPart, h0, if_false, parseDigits, hs.1, hs.2]
    simp

theorem parseSign_natLit (n : Nat) (rest : List Char) :
    parseSign (natLit n ++ rest) = ([], natLit n ++ rest) := by
  obtain ⟨d, ds, h1, h2, _, _, _⟩ := natLit_spec n
  rw [h1]
  simp [parseSign, (isDigit_ne d h2).1]

theorem parseNumber_intLit (n : Int) (rest : List Char) :
    parseNumber (intLit n ++ ',' :: rest) = some (intLit n, ',' :: rest) := by
  unfold intLit
  split_ifs with h
  · have hs : parseSign ('-' :: (natLit n.natAbs ++ ',' :: rest)) =
        (['-'], natLit n.natAbs ++ ',' :: rest) := by simp [parseSign]
    simp [parseNumber, hs, parseIntPart_natLit, parseFraction_comma, parseExponent_comma]
  · simp [parseNumber, parseSign_natLit, parseIntPart_natLit, parseFraction_comma,
      parseExponent_comma]

theorem parseIntLit_intLit (n : Int) : parseIntLit (intLit n) = some n := by
  obtain ⟨d, ds, h1, h2, h3, h4, h5⟩ := natLit_spec n.natAbs
  unfold intLit
  split_ifs with h
  · rw [h1] at *
    simp only [parseIntLit, if_true, List.all_cons, h2, h3, Bool.and_self, List.isEmpty_cons,
      Bool.not_false, h5]
    simp only [Option.some.injEq]
    omega
  · rw [h1]
    simp only [parseIntLit, (isDigit_ne d h2).1, if_false, List.all_cons, h2, h3, Bool.and_self,
      if_true, h5]
    simp only [Option.some.injEq]
    omega

theorem intLit_head (n : Int) :
    ∃ c t, intLit n = c :: t ∧ c ≠ '{' ∧ c ≠ '[' ∧ c ≠ '"' ∧ c ≠ 't' ∧ c ≠ 'f' ∧ c ≠ 'n' ∧
      isSpace c = false := by
  obtain ⟨d, ds, h1, h2, _, _, _⟩ := natLit_spec n.natAbs
  unfold intLit
  split_ifs with h
  · exact ⟨'-', _, rfl, by decide, by decide, by decide, by decide, by decide, by decide, by decide⟩
  · have := isDigit_ne d h2
    exact ⟨d, ds, h1, this.2.1, this.2.2.1, this.2.2.2.1, this.2.2.2.2.1, this.2.2.2.2.2.1,
      this.2.2.2.2.2.2.1, this.2.2.2.2.2.2.2⟩

theorem skipSpace_idem (s : List Char) : skipSpace (skipSpace s) = skipSpace s := by
  induction s with
  | nil => rfl
  | cons c t ih =>
    by_cases h : isSpace c = true
    · simp [skipSpace, h, ih]
    · simp [skipSpace, h]

theorem parseJson_skipSpace (F : Nat) (m : Mode) (s : List Char) :
    parseJson F m (skipSpace s) = parseJson F m s := by
  cases F with
  | zero => simp [parseJson]
  | succ F =>
    cases m with
    | value => rw [parseJson, parseJson, skipSpace_idem]
    | members => rw [parseJson, parseJson, skipSpace_idem]
    | elements =>
      rw [parseJson.eq_4, parseJson.eq_4]
      cases F with
      | zero => simp [parseJson]
      | succ F => rw [parseJson, parseJson, skipSpace_idem]

theorem skipSpace_space (rest : List Char) : skipSpace (' ' :: rest) = skipSpace rest := by
  simp [skipSpace, isSpace]

theorem quote_append (s : String) (rest : List Char) :
    quote s ++ rest = '"' :: (escape s.data ++ '"' :: rest) := by
  simp [quote]

theorem parseJson_value_string (F : Nat) (s : String) (after : List Char) :
    parseJson (F + 1) Mode.value (' ' :: (quote s ++ after)) = some (Json.str s, after) := by
  rw [parseJson.eq_2, skipSpace_space, quote_append, skipSpace_cons _ _ (by decide)]
  simp [parseStringBody_escape]

theorem parseJson_value_bool (F : Nat) (b : Bool) (after : List Char) :
    parseJson (F + 1) Mode.value (' ' :: (renderBool b ++ after)) = some (Json.bool b, after) := by
  rw [parseJson.eq_2, skipSpace_space]
  cases b
  · simp only [renderBool, Bool.false_eq_true, if_false, List.cons_append, List.nil_append]
    rw [skipSpace_cons _ _ (by decide)]
    simp [parseWord]
  · simp only [renderBool, if_true, List.cons_append, List.nil_append]
    rw [skipSpace_cons _ _ (by decide)]
    simp [parseWord]

theorem parseJson_value_int (F : Nat) (n : Int) (after : List Char) :
    parseJson (F + 1) Mode.value (' ' :: (intLit n ++ ',' :: after)) =
      some (Json.num (intLit n), ',' :: after) := by
  rw [parseJson.eq_2, skipSpace_space]
  have hp := parseNumber_intLit n after
  obtain ⟨c, t, h, h1, h2, h3, h4, h5, h6, h7⟩ := intLit_head n
  rw [h] at hp ⊢
  rw [List.cons_append] at hp ⊢
  rw [skipSpace_cons _ _ h7]
  simp only [h1, h2, h3, h4, h5, h6, if_false, hp]
  rfl

/-- One member: the name, the colon, and a value that the parser reads. -/
theorem parseJson_member (F d : Nat) (k : String) (vtext after : List Char) (v : Json)
    (hv : parseJson F Mode.value (' ' :: (vtext ++ after)) = some (v, after)) :
    parseJson (F + 1) Mode.members (newline d ++ (quote k ++ (':' :: ' ' :: (vtext ++ after)))) =
      match skipSpace after with
      | [] => none
      | c2 :: rest4 =>
        if c2 = '}' then some (Json.obj [(k, v)], rest4)
        else if c2 = ',' then
          match parseJson F Mode.members rest4 with
          | some (Json.obj ms, rest5) => some (Json.obj ((k, v) :: ms), rest5)
          | _ => none
        else none := by
  rw [parseJson.eq_3, skipSpace_newline, quote_append, skipSpace_cons _ _ (by decide)]
  simp only [if_true, parseStringBody_escape]
  rw [skipSpace_cons _ _ (by decide)]
  simp only [if_true, hv]

theorem parseJson_member_last (F d d1 : Nat) (k : String) (vtext rest : List Char) (v : Json)
    (hv : ∀ after, parseJson F Mode.value (' ' :: (vtext ++ after)) = some (v, after)) :
    parseJson (F + 1) Mode.members
        (newline d ++ (quote k ++ (':' :: ' ' :: (vtext ++ (newline d1 ++ '}' :: rest))))) =
      some (Json.obj [(k, v)], rest) := by
  rw [parseJson_member F d k vtext _ v (hv _), skipSpace_newline, skipSpace_cons _ _ (by decide)]
  simp

theorem parseJson_member_more (F d : Nat) (k : String) (vtext more rest : List Char) (v : Json)
    (ms : List (String × Json))
    (hv : parseJson F Mode.value (' ' :: (vtext ++ ',' :: more)) = some (v, ',' :: more))
    (hm : parseJson F Mode.members more = some (Json.obj ms, rest)) :
    parseJson (F + 1) Mode.members
        (newline d ++ (quote k ++ (':' :: ' ' :: (vtext ++ ',' :: more)))) =
      some (Json.obj ((k, v) :: ms), rest) := by
  rw [parseJson_member F d k vtext _ v hv, skipSpace_cons _ _ (by decide)]
  simp [hm]

theorem renderEntries_length_pos (d : Nat) (e : String × String) (es : List (String × String)) :
    0 < (renderEntries d (e :: es)).length := by
  cases es <;> simp [renderEntries, newline]

theorem parseJson_entries (d d1 : Nat) (rest : List Char) :
    ∀ (es : List (String × String)) (e : String × String) (F : Nat),
      (renderEntries d (e :: es)).length ≤ F →
      parseJson F Mode.members (renderEntries d (e :: es) ++ (newline d1 ++ '}' :: rest)) =
        some (Json.obj ((e :: es).map (fun x => (x.1, Json.str x.2))), rest) := by
  intro es
  induction es with
  | nil =>
    intro e F hF
    obtain ⟨k, v⟩ := e
    have hlen : 2 ≤ (renderEntries d [(k, v)]).length := by
      simp [renderEntries, newline, quote]
      omega
    obtain ⟨F1, rfl⟩ : ∃ F1, F = F1 + 1 := ⟨F - 1, by omega⟩
    obtain ⟨F2, rfl⟩ : ∃ F2, F1 = F2 + 1 := ⟨F1 - 1, by omega⟩
    have := parseJson_member_last (F2 + 1) d d1 k (quote v) rest (Json.str v)
      (fun after => parseJson_value_string F2 v after)
    simpa [renderEntries] using this
  | cons e1 es ih =>
    intro e F hF
    obtain ⟨k, v⟩ := e
    have hlen : (renderEntries d (e1 :: es)).length + 2 ≤ (renderEntries d ((k, v) :: e1 :: es)).length := by
      simp [renderEntries, newline, quote]
      omega
    have hpos := renderEntries_length_pos d e1 es
    obtain ⟨F1, rfl⟩ : ∃ F1, F = F1 + 1 := ⟨F - 1, by omega⟩
    obtain ⟨F2, rfl⟩ : ∃ F2, F1 = F2 + 1 := ⟨F1 - 1, by omega⟩
    have hm := ih e1 (F2 + 1) (by omega)
    have := parseJson_member_more (F2 + 1) d k (quote v) _ rest (Json.str v) _
      (parseJson_value_string F2 v _) hm
    simpa [renderEntries] using this

theorem renderMap_length_pos (d : Nat) (m : Option StrMap) : 2 ≤ (renderMap d m).length := by
  cases m with
  | none => simp [renderMap]
  | some m =>
    simp only [renderMap]
    split
    · simp
    · simp only [List.length_cons, List.length_append]
      omega

theorem parseJson_value_map (d : Nat) (m : Option StrMap) (after : List Char) (F : Nat)
    (hF : (renderMap d m).length ≤ F) :
    parseJson F Mode.value (' ' :: (renderMap d m ++ after)) = some (mapJson m, after) := by
  have h2 := renderMap_length_pos d m
  obtain ⟨F1, rfl⟩ : ∃ F1, F = F1 + 1 := ⟨F - 1, by omega⟩
  rw [parseJson.eq_2, skipSpace_space]
  cases m with
  | none =>
    simp only [renderMap, List.cons_append, List.nil_append]
    rw [skipSpace_cons _ _ (by decide)]
    simp [parseWord, mapJson]
  | some m =>
    obtain ⟨es, hs⟩ := m
    cases es with
    | nil =>
      simp only [renderMap, List.cons_append, List.nil_append]
      rw [skipSpace_cons _ _ (by decide)]
      simp only [Char.reduceEq, if_true, if_false]
      rw [skipSpace_cons _ _ (by decide)]
      simp [mapJson]
    | cons e es =>
      simp only [renderMap, List.cons_append, List.append_assoc, List.nil_append,
        List.singleton_append] at hF ⊢
      rw [skipSpace_cons _ _ (by decide)]
      simp only [if_true]
      have hlen : (renderEntries (d + 1) (e :: es)).length ≤ F1 := by
        simp at hF
        omega
      have hpe := parseJson_entries (d + 1) d after es e F1 hlen
      have hsk := parseJson_skipSpace F1 Mode.members
        (renderEntries (d + 1) (e :: es) ++ (newline d ++ '}' :: after))
      rw [hpe] at hsk
      generalize hg : skipSpace (renderEntries (d + 1) (e :: es) ++ (newline d ++ '}' :: after)) = sk at hsk
      cases sk with
      | nil =>
        cases F1 with
        | zero => simp [parseJson] at hsk
        | succ F1 => simp [parseJson.eq_3, skipSpace] at hsk
      | cons c1 rest1 =>
        simp only []
        have hc1 : c1 ≠ '}' := by
          rintro rfl
          cases F1 with
          | zero => simp [parseJson] at hsk
          | succ F1 =>
            rw [parseJson.eq_3, skipSpace_cons _ _ (by decide)] at hsk
            simp at hsk
        simp only [hc1, if_false, hsk]
        rfl

theorem parseJson_value_object (F : Nat) (ws body : List Char) (d1 : Nat)
    (r : Json × List Char) (hws : skipSpace (ws ++ '{' :: (newline d1 ++ '"' :: body)) =
      '{' :: (newline d1 ++ '"' :: body))
    (h : parseJson F Mode.members (newline d1 ++ '"' :: body) = some r) :
    parseJson (F + 1) Mode.value (ws ++ '{' :: (newline d1 ++ '"' :: body)) = some r := by
  rw [parseJson.eq_2, hws]
  simp only [if_true]
  rw [skipSpace_newline, skipSpace_cons _ _ (by decide)]
  simp only [Char.reduceEq, if_false]
  rw [← h, ← parseJson_skipSpace F Mode.members (newline d1 ++ '"' :: body), skipSpace_newline,
    skipSpace_cons _ _ (by decide)]

theorem parseJson_value_array (F : Nat) (ws body : List Char) (d1 : Nat)
    (r : Json × List Char) (hws : skipSpace (ws ++ '[' :: (newline d1 ++ '{' :: body)) =
      '[' :: (newline d1 ++ '{' :: body))
    (h : parseJson F Mode.elements (newline d1 ++ '{' :: body) = some r) :
    parseJson (F + 1) Mode.value (ws ++ '[' :: (newline d1 ++ '{' :: body)) = some r := by
  rw [parseJson.eq_2, hws]
  simp only [Char.reduceEq, if_true, if_false]
  rw [skipSpace_newline, skipSpace_cons _ _ (by decide)]
  simp only [Char.reduceEq, if_false]
  rw [← h]
  cases F with
  | zero => rfl
  | succ F =>
    rw [parseJson.eq_4, parseJson.eq_4,
      ← parseJson_skipSpace F Mode.value (newline d1 ++ '{' :: body), skipSpace_newline,
      skipSpace_cons _ _ (by decide)]

theorem renderInstance_eq (d : Nat) (inst : instanceConfig) (after : List Char) :
    renderInstance d inst ++ after =
      '{' :: (newline (d + 1) ++ '"' :: (escape "port".data ++ '"' :: (':' :: ' ' :: (intLit inst.Port.val ++ ',' ::
        (newline (d + 1) ++ (quote "key_path" ++ (':' :: ' ' :: (quote inst.KeyPath ++ ',' ::
        (newline (d + 1) ++ (quote "cert_path" ++ (':' :: ' ' :: (quote inst.CertPath ++ ',' ::
        (newline (d + 1) ++ (quote "debug" ++ (':' :: ' ' :: (renderBool inst.Debug ++ ',' ::
        (newline (d + 1) ++ (quote "use_ssl" ++ (':' :: ' ' :: (renderBool inst.UseSSL ++ ',' ::
        (newline (d + 1) ++ (quote "payloads" ++ (':' :: ' ' ::
        (renderMap (d + 1) inst.PayloadHostPaths ++ (newline d ++ '}' :: after))))))))))))))))))))))))) := by
  simp [renderInstance, quote]

theorem renderInstance_length (d : Nat) (inst : instanceConfig) :
    (renderMap (d + 1) inst.PayloadHostPaths).length + 8 ≤ (renderInstance d inst).length := by
  simp only [renderInstance, List.length_cons, List.length_append, newline, quote]
  omega

theorem parseJson_instance (ws : List Char) (d : Nat) (inst : instanceConfig)
    (after : List Char) (F : Nat) (hF : (renderInstance d inst).length ≤ F)
    (hws : ∀ t, skipSpace (ws ++ '{' :: t) = '{' :: t) :
    parseJson F Mode.value (ws ++ (renderInstance d inst ++ after)) =
      some (instanceJson inst, after) := by
  have hlen := renderInstance_length d inst
  have hm2 := renderMap_length_pos (d + 1) inst.PayloadHostPaths
  obtain ⟨G, rfl⟩ : ∃ G, F = G + 8 := ⟨F - 8, by omega⟩
  have h6 := parseJson_member_last (G + 1) (d + 1) d "payloads"
    (renderMap (d + 1) inst.PayloadHostPaths) after (mapJson inst.PayloadHostPaths)
    (fun a => parseJson_value_map (d + 1) inst.PayloadHostPaths a (G + 1) (by omega))
  have h5 := parseJson_member_more (G + 2) (d + 1) "use_ssl" (renderBool inst.UseSSL) _ _ _ _
    (parseJson_value_bool (G + 1) inst.UseSSL _) h6
  have h4 := parseJson_member_more (G + 3) (d + 1) "debug" (renderBool inst.Debug) _ _ _ _
    (parseJson_value_bool (G + 2) inst.Debug _) h5
  have h3 := parseJson_member_more (G + 4) (d + 1) "cert_path" (quote inst.CertPath) _ _ _ _
    (parseJson_value_string (G + 3) inst.CertPath _) h4
  have h2 := parseJson_member_more (G + 5) (d + 1) "key_path" (quote inst.KeyPath) _ _ _ _
    (parseJson_value_string (G + 4) inst.KeyPath _) h3
  have h1 := parseJson_member_more (G + 6) (d + 1) "port" (intLit inst.Port.val) _ _ _ _
    (parseJson_value_int (G + 5) inst.Port.val _) h2
  rw [quote_append "port"] at h1
  rw [renderInstance_eq]
  exact parseJson_value_object (G + 7) ws _ (d + 1) _ (hws _) h1

theorem renderInstance_head (d : Nat) (inst : instanceConfig) (t : List Char) :
    ∃ body, renderInstance d inst ++ t = '{' :: body := ⟨_, renderInstance_eq d inst t⟩

theorem renderElements_head (d : Nat) (a : instanceConfig) (l : List instanceConfig)
    (t : List Char) : ∃ body, renderElements d (a :: l) ++ t = newline d ++ '{' :: body := by
  cases l with
  | nil =>
    obtain ⟨body, hb⟩ := renderInstance_head d a t
    exact ⟨body, by simp [renderElements, hb]⟩
  | cons b l =>
    obtain ⟨body, hb⟩ := renderInstance_head d a (',' :: (renderElements d (b :: l) ++ t))
    exact ⟨body, by simp [renderElements, hb]⟩

theorem parseJson_elements (d d1 : Nat) (rest : List Char) :
    ∀ (l : List instanceConfig) (a : instanceConfig) (F : Nat),
      (renderElements d (a :: l)).length ≤ F →
      parseJson F Mode.elements (renderElements d (a :: l) ++ (newline d1 ++ ']' :: rest)) =
        some (Json.arr ((a :: l).map instanceJson), rest) := by
  intro l
  induction l with
  | nil =>
    intro a F hF
    have hlen : (renderInstance d a).length + 1 ≤ (renderElements d [a]).length := by
      simp [renderElements, newline]
    obtain ⟨F1, rfl⟩ : ∃ F1, F = F1 + 1 := ⟨F - 1, by omega⟩
    have hv := parseJson_instance (newline d) d a (newline d1 ++ ']' :: rest) F1 (by omega)
      (fun t => by rw [skipSpace_newline, skipSpace_cons _ _ (by decide)])
    simp only [renderElements, List.append_assoc]
    rw [parseJson.eq_4, hv]
    simp only []
    rw [skipSpace_newline, skipSpace_cons _ _ (by decide)]
    simp
  | cons b l ih =>
    intro a F hF
    have hlen : (renderInstance d a).length + (renderElements d (b :: l)).length + 2 ≤
        (renderElements d (a :: b :: l)).length := by
      simp [renderElements, newline]
      omega
    obtain ⟨F1, rfl⟩ : ∃ F1, F = F1 + 1 := ⟨F - 1, by omega⟩
    have hv := parseJson_instance (newline d) d a
      (',' :: (renderElements d (b :: l) ++ (newline d1 ++ ']' :: rest))) F1 (by omega)
      (fun t => by rw [skipSpace_newline, skipSpace_cons _ _ (by decide)])
    have hm := ih b F1 (by omega)
    simp only [renderElements, List.append_assoc, List.singleton_append, List.cons_append,
      List.nil_append]
    rw [parseJson.eq_4, hv]
    simp only []
    rw [skipSpace_cons _ _ (by decide)]
    simp [hm]

theorem renderInstances_length_pos (d : Nat) (x : Option (List instanceConfig)) :
    2 ≤ (renderInstances d x).length := by
  cases x with
  | none => simp [renderInstances]
  | some l =>
    cases l with
    | nil => simp [renderInstances]
    | cons a l =>
      simp only [renderInstances, List.length_cons, List.length_append]
      omega

theorem parseJson_value_instances (d : Nat) (x : Option (List instanceConfig))
    (after : List Char) (F : Nat) (hF : (renderInstances d x).length ≤ F) :
    parseJson F Mode.value (' ' :: (renderInstances d x ++ after)) =
      some (instancesJson x, after) := by
  have h2 := renderInstances_length_pos d x
  obtain ⟨F1, rfl⟩ : ∃ F1, F = F1 + 1 := ⟨F - 1, by omega⟩
  cases x with
  | none =>
    rw [parseJson.eq_2, skipSpace_space]
    simp only [renderInstances, List.cons_append, List.nil_append]
    rw [skipSpace_cons _ _ (by decide)]
    simp [parseWord, instancesJson]
  | some l =>
    cases l with
    | nil =>
      rw [parseJson.eq_2, skipSpace_space]
      simp only [renderInstances, List.cons_append, List.nil_append]
      rw [skipSpace_cons _ _ (by decide)]
      simp only [Char.reduceEq, if_true, if_false]
      rw [skipSpace_cons _ _ (by decide)]
      simp [instancesJson]
    | cons a l =>
      have hlen : (renderElements (d + 1) (a :: l)).length ≤ F1 := by
        simp only [renderInstances, List.length_cons, List.length_append] at hF
        omega
      have hp := parseJson_elements (d + 1) d after l a F1 hlen
      obtain ⟨body, hb⟩ := renderElements_head (d + 1) a l (newline d ++ ']' :: after)
      rw [hb] at hp
      have := parseJson_value_array F1 [' '] body (d + 1) _
        (by rw [List.singleton_append, skipSpace_space, skipSpace_cons _ _ (by decide)]) hp
      rw [← hb] at this
      simpa [renderInstances, instancesJson] using this

theorem parseDocument_MarshalIndent (cfg : config) :
    parseDocument (json.MarshalIndent cfg) = some (configJson cfg) := by
  have h2 := renderInstances_length_pos 1 cfg.Instances
  have hlen : (renderInstances 1 cfg.Instances).length + 3 ≤ (json.MarshalIndent cfg).length := by
    simp only [json.MarshalIndent, List.length_cons, List.length_append, newline, quote]
    omega
  obtain ⟨F, hF⟩ : ∃ F, (json.MarshalIndent cfg).length + 1 = F + 3 :=
    ⟨(json.MarshalIndent cfg).length - 2, by omega⟩
  have hm := parseJson_member_last (F + 1) 1 0 "instances" (renderInstances 1 cfg.Instances) []
    (instancesJson cfg.Instances)
    (fun a => parseJson_value_instances 1 cfg.Instances a (F + 1) (by omega))
  rw [quote_append "instances"] at hm
  have hv := parseJson_value_object (F + 2) [] _ 1 _ (by
    rw [List.nil_append, skipSpace_cons _ _ (by decide)]) hm
  have he : json.MarshalIndent cfg =
      [] ++ '{' :: (newline 1 ++ '"' :: (escape "instances".data ++ '"' :: (':' :: ' ' ::
        (renderInstances 1 cfg.Instances ++ (newline 0 ++ ['}']))))) := by
    simp [json.MarshalIndent, quote]
  unfold parseDocument
  rw [hF]
  rw [he] at *
  rw [hv]
  simp [skipSpace, configJson]

theorem insertEntry_append (k v : String) (l : List (String × String))
    (h : SortedEntries (l ++ [(k, v)])) : insertEntry k v l = l ++ [(k, v)] := by
  induction l with
  | nil => rfl
  | cons hd t ih =>
    obtain ⟨k1, v1⟩ := hd
    unfold SortedEntries at h ih
    rw [List.cons_append, List.pairwise_cons] at h
    have hlt : keyLt k1 k := h.1 (k, v) (by simp)
    have h1 : ¬ keyLt k k1 := fun hc => lt_asymm (α := List Char) hlt hc
    have h2 : k ≠ k1 := by
      rintro rfl
      exact keyLt_irrefl k hlt
    simp [insertEntry, h1, h2, ih h.2]

theorem decodeMapMembers_entries (es : List (String × String)) :
    ∀ m : StrMap, SortedEntries (m.entries ++ es) →
      ∃ m1, decodeMapMembers (es.map (fun e => (e.1, Json.str e.2))) m = Except.ok m1 ∧
        m1.entries = m.entries ++ es := by
  induction es with
  | nil => intro m _; exact ⟨m, rfl, by simp⟩
  | cons e es ih =>
    intro m hs
    obtain ⟨k, v⟩ := e
    have hs1 : SortedEntries (m.entries ++ [(k, v)]) := by
      unfold SortedEntries at hs ⊢
      have : m.entries ++ (k, v) :: es = (m.entries ++ [(k, v)]) ++ es := by simp
      rw [this] at hs
      exact (List.pairwise_append.1 hs).1
    have hi : (m.insert k v).entries = m.entries ++ [(k, v)] := insertEntry_append k v _ hs1
    obtain ⟨m1, h1, h2⟩ := ih (m.insert k v) (by rw [hi]; simpa using hs)
    refine ⟨m1, ?_, by rw [h2, hi]; simp⟩
    simp only [List.map, decodeMapMembers, decodeString]
    exact h1

theorem decodeMap_mapJson (x : Option StrMap) :
    decodeMap (mapJson x) none = Except.ok x := by
  cases x with
  | none => rfl
  | some m =>
    obtain ⟨m1, h1, h2⟩ := decodeMapMembers_entries m.entries StrMap.empty
      (by simpa [StrMap.empty] using m.sorted)
    have : m1 = m := StrMap.ext_entries _ _ (by simpa [StrMap.empty] using h2)
    subst this
    simp [mapJson, decodeMap, h1]

theorem decodeInt_intLit (p old : GoInt) : decodeInt (Json.num (intLit p.val)) old = Except.ok p := by
  simp only [decodeInt, parseIntLit_intLit]
  rw [dif_pos p.inRange]

theorem decodeInstance_instanceJson (inst : instanceConfig) :
    decodeInstance (instanceJson inst) zeroInstance = Except.ok inst := by
  have f1 : sameField "port" "port" = true := by decide
  have f2 : sameField "key_path" "port" = false := by decide
  have f3 : sameField "key_path" "key_path" = true := by decide
  have f4 : sameField "cert_path" "port" = false := by decide
  have f5 : sameField "cert_path" "key_path" = false := by decide
  have f6 : sameField "cert_path" "cert_path" = true := by decide
  have f7 : sameField "debug" "port" = false := by decide
  have f8 : sameField "debug" "key_path" = false := by decide
  have f9 : sameField "debug" "cert_path" = false := by decide
  have f10 : sameField "debug" "debug" = true := by decide
  have f11 : sameField "use_ssl" "port" = false := by decide
  have f12 : sameField "use_ssl" "key_path" = false := by decide
  have f13 : sameField "use_ssl" "cert_path" = false := by decide
  have f14 : sameField "use_ssl" "debug" = false := by decide
  have f15 : sameField "use_ssl" "use_ssl" = true := by decide
  have f16 : sameField "payloads" "port" = false := by decide
  have f17 : sameField "payloads" "key_path" = false := by decide
  have f18 : sameField "payloads" "cert_path" = false := by decide
  have f19 : sameField "payloads" "debug" = false := by decide
  have f20 : sameField "payloads" "use_ssl" = false := by decide
  have f21 : sameField "payloads" "payloads" = true := by decide
  simp only [decodeInstance, instanceJson, decodeInstanceMembers, decodeInstanceField,
    f1, f2, f3, f4, f5, f6, f7, f8, f9, f10, f11, f12, f13, f14, f15, f16, f17, f18, f19, f20, f21,
    if_true, if_false, Bool.false_eq_true, decodeInt_intLit, decodeString, decodeBool,
    zeroInstance, decodeMap_mapJson, Except.map]

theorem decodeElements_map (l : List instanceConfig) :
    decodeElements (l.map instanceJson) = Except.ok l := by
  induction l with
  | nil => rfl
  | cons a l ih => simp [decodeElements, decodeInstance_instanceJson, ih]

theorem decodeConfig_configJson (cfg : config) :
    decodeConfig (configJson cfg) { Instances := none } = Except.ok cfg := by
  have f1 : sameField "instances" "instances" = true := by decide
  obtain ⟨x⟩ := cfg
  cases x with
  | none => simp [decodeConfig, configJson, decodeConfigMembers, f1, instancesJson, decodeInstances]
  | some l =>
    simp [decodeConfig, configJson, decodeConfigMembers, f1, instancesJson, decodeInstances,
      decodeElements_map]


theorem Unmarshal_MarshalIndent (cfg : config) :
    json.Unmarshal (json.MarshalIndent cfg) = Except.ok cfg := by
  simp only [json.Unmarshal, parseDocument_MarshalIndent, decodeConfig_configJson]

/-! ### The budget of the parser -/

theorem skipSpace_length (s : List Char) : (skipSpace s).length ≤ s.length := by
  induction s with
  | nil => simp [skipSpace]
  | cons c t ih =>
    simp only [skipSpace]
    split_ifs
    · simp only [List.length_cons]
      omega
    · exact Nat.le_refl _

theorem flushSurrogate_snd (p : Option Nat) (r : List Char × List Char) :
    (flushSurrogate p r).2 = r.2 := by
  cases p <;> rfl

theorem parseStringBody_length (n : Nat) : ∀ (p : Option Nat) (s : List Char)
    (r : List Char × List Char), s.length ≤ n → parseStringBody p s = some r →
    r.2.length < s.length := by
  induction n with
  | zero =>
    intro p s r hn h
    have : s = [] := List.length_eq_zero.1 (by omega)
    subst this
    simp [parseStringBody] at h
  | succ n ih =>
    intro p s r hn h
    rw [parseStringBody.eq_def] at h
    cases s with
    | nil => simp at h
    | cons c rest =>
      simp only [List.length_cons] at hn ⊢
      simp only at h
      split_ifs at h with h1 h2 h3
      · simp only [Option.some.injEq] at h
        rw [← h, flushSurrogate_snd]
        simp
      · cases rest with
        | nil => simp at h
        | cons e rest1 =>
          simp only [List.length_cons] at hn ⊢
          simp only at h
          split_ifs at h with h4
          · split at h
            next a b c2 d rest2 =>
              simp only [List.length_cons] at hn ⊢
              split at h
              · simp at h
              · split_ifs at h
                · split at h <;>
                  · simp only [Option.map_eq_some'] at h
                    obtain ⟨r1, hr1, rfl⟩ := h
                    have := ih _ _ _ (by omega) hr1
                    simp only at this ⊢
                    omega
                · simp only [Option.map_eq_some'] at h
                  obtain ⟨r1, hr1, rfl⟩ := h
                  have := ih _ _ _ (by omega) hr1
                  rw [flushSurrogate_snd]
                  omega
                · simp only [Option.map_eq_some'] at h
                  obtain ⟨r1, hr1, rfl⟩ := h
                  have := ih _ _ _ (by omega) hr1
                  rw [flushSurrogate_snd]
                  simp only at this ⊢
                  omega
            next => simp at h
          · split at h
            · simp at h
            · simp only [Option.map_eq_some'] at h
              obtain ⟨r1, hr1, rfl⟩ := h
              have := ih _ _ _ (by omega) hr1
              rw [flushSurrogate_snd]
              simp only at this ⊢
              omega
      · simp only [Option.map_eq_some'] at h
        obtain ⟨r1, hr1, rfl⟩ := h
        have := ih _ _ _ (by omega) hr1
        rw [flushSurrogate_snd]
        simp only at this ⊢
        omega

theorem parseDigits_length (s ds rest : List Char) (h : parseDigits s = some (ds, rest)) :
    rest.length < s.length := by
  unfold parseDigits at h
  split_ifs at h with h1
  simp only [Option.some.injEq, Prod.mk.injEq] at h
  have hlen := congrArg List.length (List.takeWhile_append_dropWhile isDigit s)
  rw [List.length_append, h.1, h.2] at hlen
  have : ds ≠ [] := by
    rw [← h.1]
    simpa using h1
  have : 0 < ds.length := List.length_pos.2 this
  omega

theorem parseIntPart_length (t ip r1 : List Char) (h : parseIntPart t = some (ip, r1)) :
    r1.length < t.length := by
  cases t with
  | nil => simp [parseIntPart] at h
  | cons c t =>
    simp only [parseIntPart] at h
    split_ifs at h
    · simp only [Option.some.injEq, Prod.mk.injEq] at h
      rw [← h.2]
      simp
    · exact parseDigits_length _ _ _ h

theorem parseNumber_length (s lit rest : List Char) (h : parseNumber s = some (lit, rest)) :
    rest.length < s.length := by
  unfold parseNumber at h
  have hsign : (parseSign s).2.length ≤ s.length := by
    unfold parseSign
    split
    · split_ifs <;> simp
    · simp
  cases hi : parseIntPart (parseSign s).2 with
  | none => simp [hi] at h
  | some ip =>
    obtain ⟨ip, r1⟩ := ip
    have h1 : r1.length < (parseSign s).2.length := parseIntPart_length _ _ _ hi
    simp only [hi] at h
    cases hf : parseFraction r1 with
    | none => simp [hf] at h
    | some fp =>
      obtain ⟨fp, r2⟩ := fp
      have h2 : r2.length ≤ r1.length := by
        unfold parseFraction at hf
        split at hf
        · split_ifs at hf
          · simp only [Option.map_eq_some', Prod.exists] at hf
            obtain ⟨a, b, hab, hfp⟩ := hf
            simp only [Prod.mk.injEq] at hfp
            have := parseDigits_length _ _ _ hab
            rw [← hfp.2]
            simp only [List.length_cons]
            omega
          · simp only [Option.some.injEq, Prod.mk.injEq] at hf
            rw [← hf.2]
        · simp only [Option.some.injEq, Prod.mk.injEq] at hf
          rw [← hf.2]
      simp only [hf] at h
      cases he : parseExponent r2 with
      | none => simp [he] at h
      | some ep =>
        obtain ⟨ep, r3⟩ := ep
        have h3 : r3.length ≤ r2.length := by
          unfold parseExponent at he
          split at he
          · split_ifs at he
            · split at he
              · split_ifs at he
                · simp only [Option.map_eq_some', Prod.exists] at he
                  obtain ⟨a, b, hab, hep⟩ := he
                  simp only [Prod.mk.injEq] at hep
                  have := parseDigits_length _ _ _ hab
                  rw [← hep.2]
                  simp only [List.length_cons]
                  omega
                · simp only [Option.map_eq_some', Prod.exists] at he
                  obtain ⟨a, b, hab, hep⟩ := he
                  simp only [Prod.mk.injEq] at hep
                  have := parseDigits_length _ _ _ hab
                  rw [← hep.2]
                  simp only [List.length_cons] at this ⊢
                  omega
              · simp at he
            · simp only [Option.some.injEq, Prod.mk.injEq] at he
              rw [← he.2]
          · simp only [Option.some.injEq, Prod.mk.injEq] at he
            rw [← he.2]
        simp only [he, Option.some.injEq, Prod.mk.injEq] at h
        rw [← h.2]
        omega

theorem parseWord_length (w s r : List Char) (h : parseWord w s = some r) :
    r.length ≤ s.length := by
  unfold parseWord at h
  split_ifs at h
  simp only [Option.some.injEq] at h
  rw [← h, List.length_drop]
  omega

theorem skipSpace_cons_length (s : List Char) (c : Char) (rest : List Char)
    (h : skipSpace s = c :: rest) : rest.length < s.length := by
  have := skipSpace_length s
  rw [h] at this
  simp only [List.length_cons] at this
  omega

theorem parseJson_consumes (F : Nat) : ∀ (m : Mode) (s : List Char) (j : Json)
    (rest : List Char), parseJson F m s = some (j, rest) → rest.length < s.length := by
  induction F with
  | zero => intro m s j rest h; simp [parseJson] at h
  | succ F ih =>
    intro m s j rest h
    cases m with
    | value =>
      rw [parseJson.eq_2] at h
      cases hs : skipSpace s with
      | nil => simp [hs] at h
      | cons c t =>
        have hc := skipSpace_cons_length s c t hs
        simp only [hs] at h
        split_ifs at h
        · cases hs1 : skipSpace t with
          | nil => simp [hs1] at h
          | cons c1 t1 =>
            have hc1 := skipSpace_cons_length t c1 t1 hs1
            simp only [hs1] at h
            split_ifs at h
            · simp only [Option.some.injEq, Prod.mk.injEq] at h
              rw [← h.2]
              omega
            · have := ih _ _ _ _ h
              simp only [List.length_cons] at this
              omega
        · cases hs1 : skipSpace t with
          | nil => simp [hs1] at h
          | cons c1 t1 =>
            have hc1 := skipSpace_cons_length t c1 t1 hs1
            simp only [hs1] at h
            split_ifs at h
            · simp only [Option.some.injEq, Prod.mk.injEq] at h
              rw [← h.2]
              omega
            · have := ih _ _ _ _ h
              simp only [List.length_cons] at this
              omega
        · simp only [Option.map_eq_some', Prod.mk.injEq] at h
          obtain ⟨r, hr, _, hrest⟩ := h
          have := parseStringBody_length t.length _ _ _ (Nat.le_refl _) hr
          rw [← hrest]
          omega
        · simp only [Option.map_eq_some', Prod.mk.injEq] at h
          obtain ⟨r, hr, _, hrest⟩ := h
          have := parseWord_length _ _ _ hr
          rw [← hrest]
          omega
        · simp only [Option.map_eq_some', Prod.mk.injEq] at h
          obtain ⟨r, hr, _, hrest⟩ := h
          have := parseWord_length _ _ _ hr
          rw [← hrest]
          omega
        · simp only [Option.map_eq_some', Prod.mk.injEq] at h
          obtain ⟨r, hr, _, hrest⟩ := h
          have := parseWord_length _ _ _ hr
          rw [← hrest]
          omega
        · simp only [Option.map_eq_some', Prod.mk.injEq] at h
          obtain ⟨r, hr, _, hrest⟩ := h
          have := parseNumber_length _ r.1 r.2 hr
          have hl := skipSpace_length s
          rw [hs] at hl
          rw [← hrest]
          omega
    | members =>
      rw [parseJson.eq_3] at h
      cases hs : skipSpace s with
      | nil => simp [hs] at h
      | cons c t =>
        have hc := skipSpace_cons_length s c t hs
        simp only [hs] at h
        split_ifs at h
        cases hk : parseStringBody none t with
        | none => simp [hk] at h
        | some kr =>
          obtain ⟨k, t1⟩ := kr
          have hk1 := parseStringBody_length t.length _ _ _ (Nat.le_refl _) hk
          simp only [hk] at h
          cases hs2 : skipSpace t1 with
          | nil => simp [hs2] at h
          | cons c1 t2 =>
            have hc2 := skipSpace_cons_length t1 c1 t2 hs2
            simp only [hs2] at h
            split_ifs at h
            cases hv : parseJson F Mode.value t2 with
            | none => simp [hv] at h
            | some vr =>
              obtain ⟨v, t3⟩ := vr
              have hv1 := ih _ _ _ _ hv
              simp only [hv] at h
              cases hs3 : skipSpace t3 with
              | nil => simp [hs3] at h
              | cons c2 t4 =>
                have hc3 := skipSpace_cons_length t3 c2 t4 hs3
                simp only [hs3] at h
                split_ifs at h
                · simp only [Option.some.injEq, Prod.mk.injEq] at h
                  rw [← h.2]
                  simp only at hk1
                  omega
                · split at h
                  next ms t5 hm =>
                    have hm1 := ih _ _ _ _ hm
                    simp only [Option.some.injEq, Prod.mk.injEq] at h
                    rw [← h.2]
                    simp only at hk1
                    omega
                  next => simp at h
    | elements =>
      rw [parseJson.eq_4] at h
      cases hv : parseJson F Mode.value s with
      | none => simp [hv] at h
      | some vr =>
        obtain ⟨v, t⟩ := vr
        have hv1 := ih _ _ _ _ hv
        simp only [hv] at h
        cases hs3 : skipSpace t with
        | nil => simp [hs3] at h
        | cons c2 t4 =>
          have hc3 := skipSpace_cons_length t c2 t4 hs3
          simp only [hs3] at h
          split_ifs at h
          · simp only [Option.some.injEq, Prod.mk.injEq] at h
            rw [← h.2]
            omega
          · split at h
            next vs t5 hm =>
              have hm1 := ih _ _ _ _ hm
              simp only [Option.some.injEq, Prod.mk.injEq] at h
              rw [← h.2]
              omega
            next => simp at h

theorem parseJson_enough (F : Nat) : ∀ (m : Mode) (s : List Char) (j : Json)
    (rest : List Char), parseJson F m s = some (j, rest) →
    ∀ G, s.length - rest.length ≤ G → parseJson (G + 1) m s = some (j, rest) := by
  induction F with
  | zero => intro m s j rest h; simp [parseJson] at h
  | succ F ih =>
    intro m s j rest h G hG
    have hcons := parseJson_consumes _ _ _ _ _ h
    cases m with
    | value =>
      rw [parseJson.eq_2] at h ⊢
      cases hs : skipSpace s with
      | nil => simp [hs] at h
      | cons c t =>
        have hc := skipSpace_cons_length s c t hs
        simp only [hs] at h ⊢
        by_cases h1 : c = '{'
        · simp only [h1, if_true] at h ⊢
          cases hs1 : skipSpace t with
          | nil => simp [hs1] at h
          | cons c1 t1 =>
            have hc1 := skipSpace_cons_length t c1 t1 hs1
            simp only [hs1] at h ⊢
            by_cases h2 : c1 = '}'
            · simp only [h2, if_true] at h ⊢
              exact h
            · simp only [h2, if_false] at h ⊢
              have hr := parseJson_consumes _ _ _ _ _ h
              simp only [List.length_cons] at hr
              obtain ⟨G1, rfl⟩ : ∃ G1, G = G1 + 1 := ⟨G - 1, by omega⟩
              exact ih _ _ _ _ h G1 (by simp only [List.length_cons]; omega)
        · simp only [h1, if_false] at h ⊢
          by_cases h3 : c = '['
          · simp only [h3, if_true] at h ⊢
            cases hs1 : skipSpace t with
            | nil => simp [hs1] at h
            | cons c1 t1 =>
              have hc1 := skipSpace_cons_length t c1 t1 hs1
              simp only [hs1] at h ⊢
              by_cases h2 : c1 = ']'
              · simp only [h2, if_true] at h ⊢
                exact h
              · simp only [h2, if_false] at h ⊢
                have hr := parseJson_consumes _ _ _ _ _ h
                simp only [List.length_cons] at hr
                obtain ⟨G1, rfl⟩ : ∃ G1, G = G1 + 1 := ⟨G - 1, by omega⟩
                exact ih _ _ _ _ h G1 (by simp only [List.length_cons]; omega)
          · simp only [h3, if_false] at h ⊢
            exact h
    | members =>
      rw [parseJson.eq_3] at h ⊢
      cases hs : skipSpace s with
      | nil => simp [hs] at h
      | cons c t =>
        have hc := skipSpace_cons_length s c t hs
        simp only [hs] at h ⊢
        by_cases hq : c = '"'
        · simp only [hq, if_true] at h ⊢
          cases hk : parseStringBody none t with
          | none => simp [hk] at h
          | some kr =>
            obtain ⟨k, t1⟩ := kr
            have hk1 := parseStringBody_length t.length _ _ _ (Nat.le_refl _) hk
            simp only [hk] at h hk1 ⊢
            cases hs2 : skipSpace t1 with
            | nil => simp [hs2] at h
            | cons c1 t2 =>
              have hc2 := skipSpace_cons_length t1 c1 t2 hs2
              simp only [hs2] at h ⊢
              by_cases hcol : c1 = ':'
              · simp only [hcol, if_true] at h ⊢
                cases hv : parseJson F Mode.value t2 with
                | none => simp [hv] at h
                | some vr =>
                  obtain ⟨v, t3⟩ := vr
                  have hv1 := parseJson_consumes _ _ _ _ _ hv
                  simp only [hv] at h
                  cases hs3 : skipSpace t3 with
                  | nil => simp [hs3] at h
                  | cons c2 t4 =>
                    have hc3 := skipSpace_cons_length t3 c2 t4 hs3
                    simp only [hs3] at h
                    have hrest : rest.length ≤ t4.length := by
                      split_ifs at h
                      · simp only [Option.some.injEq, Prod.mk.injEq] at h
                        rw [← h.2]
                      · split at h
                        next ms t5 hm =>
                          have hm1 := parseJson_consumes _ _ _ _ _ hm
                          simp only [Option.some.injEq, Prod.mk.injEq] at h
                          rw [← h.2]
                          omega
                        next => simp at h
                    obtain ⟨G1, rfl⟩ : ∃ G1, G = G1 + 1 := ⟨G - 1, by omega⟩
                    rw [ih _ _ _ _ hv G1 (by omega)]
                    simp only [hs3]
                    by_cases hcl : c2 = '}'
                    · simp only [hcl, if_true] at h ⊢
                      exact h
                    · simp only [hcl, if_false] at h ⊢
                      by_cases hcm : c2 = ','
                      · simp only [hcm, if_true] at h ⊢
                        cases hm : parseJson F Mode.members t4 with
                        | none => simp [hm] at h
                        | some mr =>
                          obtain ⟨mj, t5⟩ := mr
                          have hm1 := parseJson_consumes _ _ _ _ _ hm
                          have hrest5 : rest = t5 := by
                            rw [hm] at h
                            split at h
                            next ms t6 heq =>
                              simp only [Option.some.injEq, Prod.mk.injEq] at heq h
                              rw [← h.2, heq.2]
                            next => simp at h
                          subst hrest5
                          rw [ih _ _ _ _ hm G1 (by omega)]
                          rw [hm] at h
                          exact h
                      · simp [hcm] at h
              · simp [hcol] at h
        · simp [hq] at h
    | elements =>
      rw [parseJson.eq_4] at h ⊢
      cases hv : parseJson F Mode.value s with
      | none => simp [hv] at h
      | some vr =>
        obtain ⟨v, t⟩ := vr
        have hv1 := parseJson_consumes _ _ _ _ _ hv
        simp only [hv] at h
        cases hs3 : skipSpace t with
        | nil => simp [hs3] at h
        | cons c2 t4 =>
          have hc3 := skipSpace_cons_length t c2 t4 hs3
          simp only [hs3] at h
          have hrest : rest.length ≤ t4.length := by
            split_ifs at h
            · simp only [Option.some.injEq, Prod.mk.injEq] at h
              rw [← h.2]
            · split at h
              next ms t5 hm =>
                have hm1 := parseJson_consumes _ _ _ _ _ hm
                simp only [Option.some.injEq, Prod.mk.injEq] at h
                rw [← h.2]
                omega
              next => simp at h
          obtain ⟨G1, rfl⟩ : ∃ G1, G = G1 + 1 := ⟨G - 1, by omega⟩
          rw [ih _ _ _ _ hv G1 (by omega)]
          simp only [hs3]
          by_cases hcl : c2 = ']'
          · simp only [hcl, if_true] at h ⊢
            exact h
          · simp only [hcl, if_false] at h ⊢
            by_cases hcm : c2 = ','
            · simp only [hcm, if_true] at h ⊢
              cases hm : parseJson F Mode.elements t4 with
              | none => simp [hm] at h
              | some mr =>
                obtain ⟨mj, t5⟩ := mr
                have hm1 := parseJson_consumes _ _ _ _ _ hm
                have hrest5 : rest = t5 := by
                  rw [hm] at h
                  split at h
                  next ms t6 heq =>
                    simp only [Option.some.injEq, Prod.mk.injEq] at heq h
                    rw [← h.2, heq.2]
                  next => simp at h
                subst hrest5
                rw [ih _ _ _ _ hm G1 (by omega)]
                rw [hm] at h
                exact h
            · simp [hcm] at h

/-- The budget that `parseDocument` gives the parser is enough: with any larger budget
the parser returns the same result. -/
theorem parseJson_fuel (s : List Char) (m : Mode) (k : Nat) :
    parseJson (s.length + 1 + k) m s = parseJson (s.length + 1) m s := by
  cases h1 : parseJson (s.length + 1) m s with
  | some r =>
    obtain ⟨j, rest⟩ := r
    have := parseJson_enough _ _ _ _ _ h1 (s.length + k) (by omega)
    rw [show s.length + 1 + k = s.length + k + 1 by omega]
    exact this
  | none =>
    cases h2 : parseJson (s.length + 1 + k) m s with
    | none => rfl
    | some r =>
      obtain ⟨j, rest⟩ := r
      have := parseJson_enough _ _ _ _ _ h2 s.length (by omega)
      rw [h1] at this
      cases this

/-! ### The configuration store -/

set_option maxRecDepth 100000 in
theorem sampleStore_load : getC2JsonConfig sampleEnv sampleStore = Except.ok sampleDoc := by
  decide

theorem getC2JsonConfig_ok (env : Env) (fs : FileSystem) (D : config)
    (h : getC2JsonConfig env fs = Except.ok D) :
    ∃ f, fs.file = some f ∧ (env.privileged || ownerCanRead f.mode) = true ∧
      env.readFault = none ∧ json.Unmarshal f.data = Except.ok D := by
  unfold getC2JsonConfig os.ReadFile at h
  cases hf : fs.file with
  | none => simp [hf] at h
  | some f =>
    simp only [hf] at h
    by_cases hr : (env.privileged || ownerCanRead f.mode) = true
    · cases hrf : env.readFault with
      | some msg => simp [hr, hrf] at h
      | none =>
        simp only [hr, hrf, Bool.not_true, Bool.false_eq_true, if_false] at h
        cases hu : json.Unmarshal f.data with
        | error e => simp [hu] at h
        | ok c =>
          simp only [hu, Except.ok.injEq] at h
          exact ⟨f, rfl, hr, rfl, by rw [← h]; exact hu⟩
    · simp [hr] at h

theorem getC2JsonConfig_of (env : Env) (fs : FileSystem) (f : File) (D : config)
    (hf : fs.file = some f) (hr : (env.privileged || ownerCanRead f.mode) = true)
    (hrf : env.readFault = none) (hu : json.Unmarshal f.data = Except.ok D) :
    getC2JsonConfig env fs = Except.ok D := by
  simp [getC2JsonConfig, os.ReadFile, hf, hr, hrf, hu]

theorem writeC2JsonConfig_none (env : Env) (cfg : config) (fs fs1 : FileSystem)
    (h : writeC2JsonConfig env cfg fs = (none, fs1)) :
    env.openFault = none ∧ env.writeFault = none ∧
    ((∃ f, fs.file = some f ∧ (env.privileged || ownerCanWrite f.mode) = true ∧
        fs1.file = some { f with data := json.MarshalIndent cfg }) ∨
      (fs.file = none ∧
        fs1.file = some { mode := createMode 644 env.umask, data := json.MarshalIndent cfg })) := by
  unfold writeC2JsonConfig os.WriteFile at h
  cases ho : env.openFault with
  | some msg => simp [ho] at h
  | none =>
    simp only [ho] at h
    cases hf : fs.file with
    | none =>
      simp only [hf] at h
      cases hw : env.writeFault with
      | some p => simp [hw] at h
      | none =>
        simp only [hw, Prod.mk.injEq, true_and] at h
        exact ⟨rfl, rfl, Or.inr ⟨rfl, by rw [← h]⟩⟩
    | some f =>
      simp only [hf] at h
      by_cases hp : (env.privileged || ownerCanWrite f.mode) = true
      · simp only [hp, if_true] at h
        cases hw : env.writeFault with
        | some p => simp [hw] at h
        | none =>
          simp only [hw, Prod.mk.injEq, true_and] at h
          exact ⟨rfl, rfl, Or.inl ⟨f, rfl, hp, by rw [← h]⟩⟩
      · simp [hp] at h

theorem ownerCanRead_createMode (umask : Nat) : ownerCanRead (createMode 644 umask) = false := by
  have h : createMode 644 umask ≤ 132 := by
    unfold createMode
    exact Nat.and_le_left
  simp only [ownerCanRead, decide_eq_false_iff_not]
  omega

/-- A file that `writeC2JsonConfig` has to create gets the permission bits of the decimal
`644`, that is `0204` or less: the save succeeds, and an unprivileged owner cannot read the
file back. -/
theorem writeC2JsonConfig_creates_unreadable (D : config) (envS envL : Env)
    (hS : envS.openFault = none ∧ envS.writeFault = none) (hL : envL.privileged = false) :
    (writeC2JsonConfig envS D { file := none }).1 = none ∧
    getC2JsonConfig envL (writeC2JsonConfig envS D { file := none }).2 =
      Except.error (GoError.pathError "open" configPath "permission denied") := by
  simp [writeC2JsonConfig, os.WriteFile, hS.1, hS.2, getC2JsonConfig, os.ReadFile, hL,
    ownerCanRead_createMode]

theorem writeC2JsonConfig_fst_snd (env : Env) (cfg : config) (fs : FileSystem) :
    writeC2JsonConfig env cfg fs =
      ((writeC2JsonConfig env cfg fs).1, (writeC2JsonConfig env cfg fs).2) := rfl

/-- Saving over a file that may be written and read: a document that `writeC2JsonConfig`
saves is the document `getC2JsonConfig` then loads, whatever the document (nil or empty
slice, nil or empty maps, any strings, any 64-bit port), provided no I/O failure is
injected and the file exists with permissions that let the saving process write it and
the loading process read it, or it does not exist and the loading process is
privileged. -/
theorem save_then_load (D : config) (envS envL : Env) (fs : FileSystem)
    (hS : envS.openFault = none ∧ envS.writeFault = none) (hL : envL.readFault = none)
    (hacc : (∃ f, fs.file = some f ∧ (envS.privileged || ownerCanWrite f.mode) = true ∧
        (envL.privileged || ownerCanRead f.mode) = true) ∨
      (fs.file = none ∧ envL.privileged = true)) :
    (writeC2JsonConfig envS D fs).1 = none ∧
    getC2JsonConfig envL (writeC2JsonConfig envS D fs).2 = Except.ok D := by
  rcases hacc with ⟨f, hf, hw, hr⟩ | ⟨hf, hp⟩
  · have hwr : writeC2JsonConfig envS D fs =
        (none, { file := some { f with data := json.MarshalIndent D } }) := by
      simp [writeC2JsonConfig, os.WriteFile, hS.1, hS.2, hf, hw]
    rw [hwr]
    exact ⟨rfl, getC2JsonConfig_of envL _ _ D rfl hr hL (Unmarshal_MarshalIndent D)⟩
  · have hwr : writeC2JsonConfig envS D fs =
        (none, { file := some { mode := createMode 644 envS.umask, data := json.MarshalIndent D } }) := by
      simp [writeC2JsonConfig, os.WriteFile, hS.1, hS.2, hf]
    rw [hwr]
    exact ⟨rfl, getC2JsonConfig_of envL _ _ D rfl (by simp [hp]) hL (Unmarshal_MarshalIndent D)⟩

/-- The sample document saved to the sample store and loaded again. -/
theorem save_then_load_witness :
    (writeC2JsonConfig sampleEnv sampleDoc sampleStore).1 = none ∧
    getC2JsonConfig sampleEnv (writeC2JsonConfig sampleEnv sampleDoc sampleStore).2 =
      Except.ok sampleDoc :=
  save_then_load sampleDoc sampleEnv sampleEnv sampleStore ⟨rfl, rfl⟩ rfl
    (Or.inl ⟨{ mode := 420, data := sampleText.data }, rfl, by decide, by decide⟩)

/-- C7 (where the code fails it): the sample document is saved by an unprivileged process
to a store that has no configuration file.  `writeC2JsonConfig` succeeds and creates the
file with mode `0204` (decimal 132), the permission bits of the decimal `644` it passes,
which do not let the owner read; `getC2JsonConfig` by the same process then fails with
"permission denied" instead of returning the document.  Had the mode been the octal
`0644` (decimal 420), the file would have been created readable and the load would have
returned the document. -/
theorem save_then_load_fails_on_created_file :
    (writeC2JsonConfig sampleEnv sampleDoc emptyStore).1 = none ∧
    (writeC2JsonConfig sampleEnv sampleDoc emptyStore).2.file =
      some { mode := 132, data := json.MarshalIndent sampleDoc } ∧
    ownerCanRead 132 = false ∧
    getC2JsonConfig sampleEnv (writeC2JsonConfig sampleEnv sampleDoc emptyStore).2 =
      Except.error (GoError.pathError "open" configPath "permission denied") ∧
    (os.WriteFile sampleEnv (json.MarshalIndent sampleDoc) 420 emptyStore).2.file =
      some { mode := 420, data := json.MarshalIndent sampleDoc } ∧
    getC2JsonConfig sampleEnv
        (os.WriteFile sampleEnv (json.MarshalIndent sampleDoc) 420 emptyStore).2 =
      Except.ok sampleDoc := by
  have h1 : writeC2JsonConfig sampleEnv sampleDoc emptyStore =
      (none, FileSystem.mk (some (File.mk 132 (json.MarshalIndent sampleDoc)))) := by
    have hm : createMode 644 sampleEnv.umask = 132 := by decide
    simp only [writeC2JsonConfig, os.WriteFile, emptyStore, hm]
    rfl
  have h2 : os.WriteFile sampleEnv (json.MarshalIndent sampleDoc) 420 emptyStore =
      (none, FileSystem.mk (some (File.mk 420 (json.MarshalIndent sampleDoc)))) := by
    have hm : createMode 420 sampleEnv.umask = 420 := by decide
    simp only [os.WriteFile, emptyStore, hm]
    rfl
  rw [h1, h2]
  refine ⟨rfl, rfl, by decide, ?_, rfl, ?_⟩
  · have := (writeC2JsonConfig_creates_unreadable sampleDoc sampleEnv sampleEnv ⟨rfl, rfl⟩ rfl).2
    rw [show ({ file := none } : FileSystem) = emptyStore from rfl, h1] at this
    exact this
  · exact getC2JsonConfig_of sampleEnv _ _ sampleDoc rfl (by decide) rfl
      (Unmarshal_MarshalIndent sampleDoc)

theorem HostFileFunction_of_load (env : Env) (message : C2HostFileMessage) (fs : FileSystem)
    (D : config) (hload : getC2JsonConfig env fs = Except.ok D) :
    HostFileFunction env message fs =
      match writeC2JsonConfig env (addOrUpdateHostedPath D message.HostURL message.FileUUID) fs with
      | (some err, fs1) => ({ Success := false, Error := err.Error }, fs1)
      | (none, fs1) => ({ Success := true, Error := "" }, fs1) := by
  unfold HostFileFunction
  rw [hload]

theorem HostFileFunction_success (env : Env) (message : C2HostFileMessage) (fs : FileSystem)
    (D : config) (hload : getC2JsonConfig env fs = Except.ok D)
    (hsucc : (HostFileFunction env message fs).1.Success = true) :
    ∃ f, fs.file = some f ∧ (env.privileged || ownerCanRead f.mode) = true ∧
      env.readFault = none ∧
      HostFileFunction env message fs =
        ({ Success := true, Error := "" },
          FileSystem.mk (some (File.mk f.mode
            (json.MarshalIndent (addOrUpdateHostedPath D message.HostURL message.FileUUID))))) := by
  obtain ⟨f, hf, hr, hrf, _⟩ := getC2JsonConfig_ok env fs D hload
  rw [HostFileFunction_of_load env message fs D hload] at hsucc ⊢
  rw [writeC2JsonConfig_fst_snd] at hsucc ⊢
  cases h1 : (writeC2JsonConfig env (addOrUpdateHostedPath D message.HostURL message.FileUUID) fs).1 with
  | some e => simp [h1] at hsucc
  | none =>
    have hw := writeC2JsonConfig_none env _ fs _
      (by rw [writeC2JsonConfig_fst_snd, h1])
    rcases hw.2.2 with ⟨g, hg, _, hfs1⟩ | ⟨hnone, _⟩
    · rw [hf] at hg
      cases hg
      refine ⟨f, hf, hr, hrf, ?_⟩
      simp only []
      congr 1
      cases hx : (writeC2JsonConfig env (addOrUpdateHostedPath D message.HostURL message.FileUUID) fs).2
      rw [hx] at hfs1
      simp only at hfs1
      rw [hfs1]
    · rw [hf] at hnone
      cases hnone

/-- C6: `hostFile` only mutates `payloadHostPaths`.  The document its instance loop makes
of `D` has as many instances as `D`; the instance at every position keeps its port, key
path, certificate path, debug and SSL flags, and every route key other than `hostURL` is
bound in it exactly when it was bound in `D`, to the same file identifier.  That document
is the one a successful `hostFile` leaves in a store that held `D`. -/
theorem hostFile_only_mutates_payloadHostPaths (D : config) (hostURL fileUUID : String) :
    ((addOrUpdateHostedPath D hostURL fileUUID).instanceList.length = D.instanceList.length ∧
      ∀ (i : Nat) (inst1 inst : instanceConfig),
        (addOrUpdateHostedPath D hostURL fileUUID).instanceList.get? i = some inst1 →
        D.instanceList.get? i = some inst →
        inst1.Port = inst.Port ∧ inst1.KeyPath = inst.KeyPath ∧
        inst1.CertPath = inst.CertPath ∧ inst1.Debug = inst.Debug ∧
        inst1.UseSSL = inst.UseSSL ∧
        ∀ k : String, k ≠ hostURL → inst1.hostedPath k = inst.hostedPath k) ∧
    ∀ (env : Env) (fs : FileSystem), getC2JsonConfig env fs = Except.ok D →
      (HostFileFunction env { HostURL := hostURL, FileUUID := fileUUID } fs).1.Success = true →
      getC2JsonConfig env
          (HostFileFunction env { HostURL := hostURL, FileUUID := fileUUID } fs).2 =
        Except.ok (addOrUpdateHostedPath D hostURL fileUUID) := by
  refine ⟨⟨?_, ?_⟩, ?_⟩
  · rw [addOrUpdateHostedPath_instanceList, List.length_map]
  · rw [addOrUpdateHostedPath_instanceList]
    intro i inst1 inst h1 h2
    rw [List.get?_eq_getElem?, List.getElem?_map, ← List.get?_eq_getElem?, h2] at h1
    simp only [Option.map_some', Option.some.injEq] at h1
    subst h1
    refine ⟨rfl, rfl, rfl, rfl, rfl, ?_⟩
    intro k hk
    exact setHostedPath_hostedPath_other hostURL fileUUID k inst hk
  · intro env fs hload hsucc
    obtain ⟨f, hf, hr, hrf, heq⟩ := HostFileFunction_success env _ fs D hload hsucc
    rw [heq]
    exact getC2JsonConfig_of env _ _ _ rfl hr hrf (Unmarshal_MarshalIndent _)

/-- C3: when the store holds a loadable document `D` with `N` instances, a successful
`hostFile` leaves in the store the text of a document that loads again, has exactly the
`N` instances of `D` in the same order, each with `payloadHostPaths[hostURL] = fileUUID`
(the map made when it was nil, an earlier value of `hostURL` replaced) and otherwise
unchanged; no instance is created or deleted. -/
theorem hostFile_updates_every_instance (env : Env) (message : C2HostFileMessage)
    (fs : FileSystem) (D : config) (hload : getC2JsonConfig env fs = Except.ok D)
    (hsucc : (HostFileFunction env message fs).1.Success = true) :
    ∃ P, getC2JsonConfig env (HostFileFunction env message fs).2 = Except.ok P ∧
      P.instanceList.length = D.instanceList.length ∧
      (∀ inst ∈ P.instanceList, inst.hostedPath message.HostURL = some message.FileUUID) ∧
      P.instanceList = D.instanceList.map (setHostedPath message.HostURL message.FileUUID) ∧
      (D.Instances = none ↔ P.Instances = none) := by
  obtain ⟨f, hf, hr, hrf, heq⟩ := HostFileFunction_success env message fs D hload hsucc
  refine ⟨addOrUpdateHostedPath D message.HostURL message.FileUUID, ?_, ?_, ?_, ?_, ?_⟩
  · rw [heq]
    exact getC2JsonConfig_of env _ _ _ rfl hr hrf (Unmarshal_MarshalIndent _)
  · rw [addOrUpdateHostedPath_instanceList, List.length_map]
  · intro inst hinst
    rw [addOrUpdateHostedPath_instanceList, List.mem_map] at hinst
    obtain ⟨a, _, rfl⟩ := hinst
    exact setHostedPath_hostedPath_self _ _ a
  · exact addOrUpdateHostedPath_instanceList D _ _
  · cases D with
    | mk insts => cases insts <;> simp [addOrUpdateHostedPath]

theorem sample_hostFile :
    HostFileFunction sampleEnv { HostURL := "/a", FileUUID := "1" } sampleStore =
      ({ Success := true, Error := "" },
        FileSystem.mk (some (File.mk 420
          (json.MarshalIndent (addOrUpdateHostedPath sampleDoc "/a" "1"))))) := by
  rw [HostFileFunction_of_load _ _ _ _ sampleStore_load]
  rfl

/-- Hosting file `1` at `/a` on the sample store, whose first instance has a nil map and
whose second instance already routes `/a`. -/
theorem hostFile_updates_every_instance_witness :
    ∃ P, getC2JsonConfig sampleEnv
        (HostFileFunction sampleEnv { HostURL := "/a", FileUUID := "1" } sampleStore).2 =
          Except.ok P ∧
      P.instanceList.length = sampleDoc.instanceList.length ∧
      (∀ inst ∈ P.instanceList, inst.hostedPath "/a" = some "1") ∧
      P.instanceList = sampleDoc.instanceList.map (setHostedPath "/a" "1") ∧
      (sampleDoc.Instances = none ↔ P.Instances = none) :=
  hostFile_updates_every_instance sampleEnv { HostURL := "/a", FileUUID := "1" } sampleStore
    sampleDoc sampleStore_load (by rw [sample_hostFile])

theorem getC2JsonConfig_env (env1 env2 : Env) (fs : FileSystem)
    (hp : env1.privileged = env2.privileged) (hr : env1.readFault = env2.readFault) :
    getC2JsonConfig env1 fs = getC2JsonConfig env2 fs := by
  simp [getC2JsonConfig, os.ReadFile, hp, hr]

theorem fullDisk_hostFile :
    HostFileFunction fullDiskEnv messageB sampleStore =
      ({ Success := false, Error := "write c3/c2_code/config.json: no space left on device" },
        FileSystem.mk (some (File.mk 420
          ((json.MarshalIndent (addOrUpdateHostedPath sampleDoc "/b" "1")).take 12)))) := by
  have hload : getC2JsonConfig fullDiskEnv sampleStore = Except.ok sampleDoc := by
    rw [getC2JsonConfig_env fullDiskEnv sampleEnv sampleStore rfl rfl]
    exact sampleStore_load
  rw [HostFileFunction_of_load _ _ _ _ hload]
  have herr : (GoError.pathError "write" configPath "no space left on device").Error =
      "write c3/c2_code/config.json: no space left on device" := by decide
  rw [← herr]
  rfl

/-- C4 (as stated, refuted): the disk fills up while `hostFile` writes the document
back.  The call returns success=false, and the file, which held the whole sample
document before the call, holds the first twelve characters of the new text after it: it
does not load any more. -/
theorem hostFile_failed_save_truncates :
    (HostFileFunction fullDiskEnv messageB sampleStore).1.Success = false ∧
    getC2JsonConfig sampleEnv sampleStore = Except.ok sampleDoc ∧
    (HostFileFunction fullDiskEnv messageB sampleStore).2 ≠ sampleStore ∧
    (HostFileFunction fullDiskEnv messageB sampleStore).2.file =
      some { mode := 420, data := "\x7b\n  \"instanc".data } ∧
    getC2JsonConfig sampleEnv (HostFileFunction fullDiskEnv messageB sampleStore).2 =
      Except.error GoError.syntaxError := by
  rw [fullDisk_hostFile]
  have hdata : (json.MarshalIndent (addOrUpdateHostedPath sampleDoc "/b" "1")).take 12 =
      "\x7b\n  \"instanc".data := by decide
  rw [hdata]
  refine ⟨rfl, sampleStore_load, by decide, rfl, by decide⟩

/-- C4 (amended): whenever `hostFile` returns success=false, exactly one of these is
the case, and its error field is the text of the error named.  The load failed with an
error `e`: the store is as before, nothing was written.  The load succeeded and the save
failed to open the file, because opening fails in this environment or because the file
may not be written: the store is as before.  The load succeeded, the file was opened, and
the write failed after `n` characters: the file holds the first `n` characters of the
new text and nothing else. -/
theorem hostFile_failure (env : Env) (message : C2HostFileMessage) (fs : FileSystem)
    (hfail : (HostFileFunction env message fs).1.Success = false) :
    (∃ e, getC2JsonConfig env fs = Except.error e ∧
      HostFileFunction env message fs = ({ Success := false, Error := e.Error }, fs)) ∨
    (∃ D f, getC2JsonConfig env fs = Except.ok D ∧ fs.file = some f ∧
      ((∃ msg, env.openFault = some msg ∧
          (writeC2JsonConfig env
            (addOrUpdateHostedPath D message.HostURL message.FileUUID) fs).1 =
              some (GoError.pathError "open" configPath msg) ∧
          HostFileFunction env message fs =
            ({ Success := false, Error := (GoError.pathError "open" configPath msg).Error },
              fs)) ∨
        (env.openFault = none ∧ (env.privileged || ownerCanWrite f.mode) = false ∧
          (writeC2JsonConfig env
            (addOrUpdateHostedPath D message.HostURL message.FileUUID) fs).1 =
              some (GoError.pathError "open" configPath "permission denied") ∧
          HostFileFunction env message fs =
            ({ Success := false,
               Error := (GoError.pathError "open" configPath "permission denied").Error },
              fs)) ∨
        (∃ n msg, env.openFault = none ∧ (env.privileged || ownerCanWrite f.mode) = true ∧
          env.writeFault = some (n, msg) ∧
          (writeC2JsonConfig env
            (addOrUpdateHostedPath D message.HostURL message.FileUUID) fs).1 =
              some (GoError.pathError "write" configPath msg) ∧
          HostFileFunction env message fs =
            ({ Success := false, Error := (GoError.pathError "write" configPath msg).Error },
              FileSystem.mk (some (File.mk f.mode ((json.MarshalIndent
                (addOrUpdateHostedPath D message.HostURL message.FileUUID)).take n))))))) := by
  cases hload : getC2JsonConfig env fs with
  | error e =>
    left
    exact ⟨e, rfl, by simp [HostFileFunction, hload]⟩
  | ok D =>
    right
    obtain ⟨f, hf, _, _, _⟩ := getC2JsonConfig_ok env fs D hload
    refine ⟨D, f, rfl, hf, ?_⟩
    rw [HostFileFunction_of_load env message fs D hload] at hfail ⊢
    unfold writeC2JsonConfig os.WriteFile at hfail ⊢
    cases ho : env.openFault with
    | some msg =>
      left
      exact ⟨msg, rfl, by simp, by simp⟩
    | none =>
      right
      by_cases hp : (env.privileged || ownerCanWrite f.mode) = true
      · right
        cases hw : env.writeFault with
        | none => simp [ho, hf, hp, hw] at hfail
        | some p =>
          obtain ⟨n, msg⟩ := p
          exact ⟨n, msg, rfl, hp, rfl, by simp [hf, hp], by simp [hf, hp]⟩
      · left
        have hp' : (env.privileged || ownerCanWrite f.mode) = false := by
          simpa using hp
        exact ⟨rfl, hp', by simp [hf, hp], by simp [hf, hp]⟩

/-- The failed call on the full disk is a failed write: the file was opened and emptied. -/
theorem hostFile_failure_witness :
    (∃ e, getC2JsonConfig fullDiskEnv sampleStore = Except.error e ∧
      HostFileFunction fullDiskEnv messageB sampleStore =
        ({ Success := false, Error := e.Error }, sampleStore)) ∨
    (∃ D f, getC2JsonConfig fullDiskEnv sampleStore = Except.ok D ∧ sampleStore.file = some f ∧
      ((∃ msg, fullDiskEnv.openFault = some msg ∧
          (writeC2JsonConfig fullDiskEnv
            (addOrUpdateHostedPath D messageB.HostURL messageB.FileUUID) sampleStore).1 =
              some (GoError.pathError "open" configPath msg) ∧
          HostFileFunction fullDiskEnv messageB sampleStore =
            ({ Success := false, Error := (GoError.pathError "open" configPath msg).Error },
              sampleStore)) ∨
        (fullDiskEnv.openFault = none ∧
          (fullDiskEnv.privileged || ownerCanWrite f.mode) = false ∧
          (writeC2JsonConfig fullDiskEnv
            (addOrUpdateHostedPath D messageB.HostURL messageB.FileUUID) sampleStore).1 =
              some (GoError.pathError "open" configPath "permission denied") ∧
          HostFileFunction fullDiskEnv messageB sampleStore =
            ({ Success := false,
               Error := (GoError.pathError "open" configPath "permission denied").Error },
              sampleStore)) ∨
        (∃ n msg, fullDiskEnv.openFault = none ∧
          (fullDiskEnv.privileged || ownerCanWrite f.mode) = true ∧
          fullDiskEnv.writeFault = some (n, msg) ∧
          (writeC2JsonConfig fullDiskEnv
            (addOrUpdateHostedPath D messageB.HostURL messageB.FileUUID) sampleStore).1 =
              some (GoError.pathError "write" configPath msg) ∧
          HostFileFunction fullDiskEnv messageB sampleStore =
            ({ Success := false, Error := (GoError.pathError "write" configPath msg).Error },
              FileSystem.mk (some (File.mk f.mode ((json.MarshalIndent
                (addOrUpdateHostedPath D messageB.HostURL messageB.FileUUID)).take n))))))) :=
  hostFile_failure fullDiskEnv messageB sampleStore (by rw [fullDisk_hostFile])

theorem stepCall_start (env : Env) (message : C2HostFileMessage) (fs : FileSystem) (D : config)
    (hload : getC2JsonConfig env fs = Except.ok D) :
    stepCall env (CallState.start message) fs =
      (CallState.loaded (addOrUpdateHostedPath D message.HostURL message.FileUUID), fs) := by
  simp [stepCall, hload]

theorem stepCall_twice (env : Env) (message : C2HostFileMessage) (fs : FileSystem) :
    stepCall env (stepCall env (CallState.start message) fs).1
        (stepCall env (CallState.start message) fs).2 =
      (CallState.returned (HostFileFunction env message fs).1,
        (HostFileFunction env message fs).2) := by
  cases hload : getC2JsonConfig env fs with
  | error e => simp [stepCall, HostFileFunction, hload]
  | ok D =>
    rw [stepCall_start env message fs D hload, HostFileFunction_of_load env message fs D hload]
    simp only [stepCall]
    rw [writeC2JsonConfig_fst_snd]
    cases (writeC2JsonConfig env (addOrUpdateHostedPath D message.HostURL message.FileUUID) fs).1 <;>
      rfl

theorem runSchedule_serial (env1 env2 : Env) (m1 m2 : C2HostFileMessage) (fs : FileSystem) :
    runSchedule env1 env2 serialSchedule
        { first := CallState.start m1, second := CallState.start m2, fs := fs } =
      { first := CallState.returned (HostFileFunction env1 m1 fs).1,
        second := CallState.returned (HostFileFunction env2 m2 (HostFileFunction env1 m1 fs).2).1,
        fs := (HostFileFunction env2 m2 (HostFileFunction env1 m1 fs).2).2 } := by
  simp only [serialSchedule, runSchedule]
  rw [stepCall_twice env1 m1 fs]
  simp only []
  rw [stepCall_twice env2 m2 (HostFileFunction env1 m1 fs).2]

theorem sample_overlapping :
    runSchedule sampleEnv sampleEnv overlappingSchedule twoCallsStart =
      { first := CallState.returned { Success := true, Error := "" },
        second := CallState.returned { Success := true, Error := "" },
        fs := FileSystem.mk (some (File.mk 420
          (json.MarshalIndent (addOrUpdateHostedPath sampleDoc "/c" "2")))) } := by
  simp only [overlappingSchedule, runSchedule, twoCallsStart]
  rw [stepCall_start sampleEnv messageB sampleStore sampleDoc sampleStore_load]
  simp only []
  rw [stepCall_start sampleEnv messageC sampleStore sampleDoc sampleStore_load]
  rfl

/-- C8 (as stated, refuted): two calls of `hostFile`, for `/b` and for `/c`, run at the
same time on the sample store, and both load the document before either saves it.  Both
return success, and the document in the store afterwards has the route `/c` in both
instances and the route `/b` in none: the update of the first call is lost. -/
theorem concurrent_hostFile_loses_update :
    (runSchedule sampleEnv sampleEnv overlappingSchedule twoCallsStart).first =
      CallState.returned { Success := true, Error := "" } ∧
    (runSchedule sampleEnv sampleEnv overlappingSchedule twoCallsStart).second =
      CallState.returned { Success := true, Error := "" } ∧
    ∃ P, getC2JsonConfig sampleEnv
        (runSchedule sampleEnv sampleEnv overlappingSchedule twoCallsStart).fs = Except.ok P ∧
      P.instanceList.length = 2 ∧
      ∀ inst ∈ P.instanceList, inst.hostedPath "/b" = none ∧ inst.hostedPath "/c" = some "2" := by
  rw [sample_overlapping]
  refine ⟨rfl, rfl, addOrUpdateHostedPath sampleDoc "/c" "2",
    getC2JsonConfig_of sampleEnv _ _ _ rfl (by decide) rfl (Unmarshal_MarshalIndent _), by decide,
    ?_⟩
  decide

theorem HostFileFunction_success_load (env : Env) (message : C2HostFileMessage)
    (fs : FileSystem) (hsucc : (HostFileFunction env message fs).1.Success = true) :
    ∃ D, getC2JsonConfig env fs = Except.ok D := by
  cases hload : getC2JsonConfig env fs with
  | error e => simp [HostFileFunction, hload] at hsucc
  | ok D => exact ⟨D, rfl⟩

/-- C8 (amended): when the first call of `hostFile` returns before the second starts, the
two requests name different routes and both calls succeed, the document in the store
afterwards has the instances of the document the first call loaded, in the same order and
changed only by the two assignments, in every one of them with both routes.  Nothing in
`hostFile` makes calls take turns. -/
theorem serial_hostFile_keeps_both (env1 env2 : Env) (m1 m2 : C2HostFileMessage)
    (fs : FileSystem) (D : config) (hload : getC2JsonConfig env1 fs = Except.ok D)
    (hne : m1.HostURL ≠ m2.HostURL)
    (h1 : (runSchedule env1 env2 serialSchedule
      { first := CallState.start m1, second := CallState.start m2, fs := fs }).first =
        CallState.returned { Success := true, Error := "" })
    (h2 : (runSchedule env1 env2 serialSchedule
      { first := CallState.start m1, second := CallState.start m2, fs := fs }).second =
        CallState.returned { Success := true, Error := "" }) :
    ∃ P, getC2JsonConfig env2 (runSchedule env1 env2 serialSchedule
        { first := CallState.start m1, second := CallState.start m2, fs := fs }).fs =
          Except.ok P ∧
      P.instanceList.length = D.instanceList.length ∧
      (∀ inst ∈ P.instanceList, inst.hostedPath m1.HostURL = some m1.FileUUID ∧
        inst.hostedPath m2.HostURL = some m2.FileUUID) ∧
      P.instanceList = D.instanceList.map (fun a =>
        setHostedPath m2.HostURL m2.FileUUID (setHostedPath m1.HostURL m1.FileUUID a)) := by
  rw [runSchedule_serial] at h1 h2 ⊢
  simp only [CallState.returned.injEq] at h1 h2
  have hs1 : (HostFileFunction env1 m1 fs).1.Success = true := by rw [h1]
  obtain ⟨f, hf, hr, hrf, heq⟩ := HostFileFunction_success env1 m1 fs D hload hs1
  have hs2 : (HostFileFunction env2 m2 (HostFileFunction env1 m1 fs).2).1.Success = true := by
    rw [h2]
  obtain ⟨D1, hload2⟩ := HostFileFunction_success_load env2 m2 _ hs2
  obtain ⟨g, hg, hr2, hrf2, heq2⟩ := HostFileFunction_success env2 m2 _ D1 hload2 hs2
  have hD1 : D1 = addOrUpdateHostedPath D m1.HostURL m1.FileUUID := by
    obtain ⟨g1, hg1, _, _, hu⟩ := getC2JsonConfig_ok env2 _ D1 hload2
    rw [heq] at hg1
    simp only [Option.some.injEq] at hg1
    rw [← hg1, Unmarshal_MarshalIndent] at hu
    simp only [Except.ok.injEq] at hu
    exact hu.symm
  refine ⟨addOrUpdateHostedPath D1 m2.HostURL m2.FileUUID, ?_, ?_, ?_, ?_⟩
  · rw [heq2]
    exact getC2JsonConfig_of env2 _ _ _ rfl hr2 hrf2 (Unmarshal_MarshalIndent _)
  · rw [hD1, addOrUpdateHostedPath_instanceList, addOrUpdateHostedPath_instanceList,
      List.length_map, List.length_map]
  · intro inst hinst
    rw [hD1, addOrUpdateHostedPath_instanceList, addOrUpdateHostedPath_instanceList,
      List.mem_map] at hinst
    obtain ⟨b, hb, rfl⟩ := hinst
    rw [List.mem_map] at hb
    obtain ⟨a, _, rfl⟩ := hb
    refine ⟨?_, setHostedPath_hostedPath_self _ _ _⟩
    rw [setHostedPath_hostedPath_other _ _ _ _ hne]
    exact setHostedPath_hostedPath_self _ _ a
  · rw [hD1, addOrUpdateHostedPath_instanceList, addOrUpdateHostedPath_instanceList,
      List.map_map]
    rfl

theorem sample_serial :
    runSchedule sampleEnv sampleEnv serialSchedule
        { first := CallState.start messageB, second := CallState.start messageC,
          fs := sampleStore } =
      { first := CallState.returned { Success := true, Error := "" },
        second := CallState.returned { Success := true, Error := "" },
        fs := FileSystem.mk (some (File.mk 420 (json.MarshalIndent
          (addOrUpdateHostedPath (addOrUpdateHostedPath sampleDoc "/b" "1") "/c" "2")))) } := by
  simp only [serialSchedule, runSchedule]
  rw [stepCall_start sampleEnv messageB sampleStore sampleDoc sampleStore_load]
  simp only [stepCall]
  have hw : writeC2JsonConfig sampleEnv (addOrUpdateHostedPath sampleDoc messageB.HostURL
      messageB.FileUUID) sampleStore =
      (none, FileSystem.mk (some (File.mk 420 (json.MarshalIndent
        (addOrUpdateHostedPath sampleDoc "/b" "1"))))) := rfl
  rw [hw]
  simp only []
  have hl : getC2JsonConfig sampleEnv (FileSystem.mk (some (File.mk 420 (json.MarshalIndent
      (addOrUpdateHostedPath sampleDoc "/b" "1"))))) =
      Except.ok (addOrUpdateHostedPath sampleDoc "/b" "1") :=
    getC2JsonConfig_of sampleEnv _ _ _ rfl (by decide) rfl (Unmarshal_MarshalIndent _)
  rw [hl]
  rfl

/-- The calls for `/b` and `/c` on the sample store, one after the other. -/
theorem serial_hostFile_keeps_both_witness :
    ∃ P, getC2JsonConfig sampleEnv (runSchedule sampleEnv sampleEnv serialSchedule
        { first := CallState.start messageB, second := CallState.start messageC,
          fs := sampleStore }).fs = Except.ok P ∧
      P.instanceList.length = sampleDoc.instanceList.length ∧
      (∀ inst ∈ P.instanceList, inst.hostedPath messageB.HostURL = some messageB.FileUUID ∧
        inst.hostedPath messageC.HostURL = some messageC.FileUUID) ∧
      P.instanceList = sampleDoc.instanceList.map (fun a =>
        setHostedPath messageC.HostURL messageC.FileUUID
          (setHostedPath messageB.HostURL messageB.FileUUID a)) :=
  serial_hostFile_keeps_both sampleEnv sampleEnv messageB messageC sampleStore sampleDoc
    sampleStore_load (by decide) (by rw [sample_serial]) (by rw [sample_serial])

end c2functions
